import Mathlib

/-!
Verification of the multi-layer job-field detector (job-detector content script,
`JobDetector` object). The detector runs four ordered layers over a read-only
document handle, each layer raising per-field confidence through a shared
`updateField` primitive. This file gives a shallow embedding of the detector and
proves/refutes the frozen claims about it.

The document is abstracted as `Doc`: JSON-LD script blocks (each either a parse
failure or a list of parsed items), meta-tag content, hostname, page title, body
text, the h1/h2/h3 heading list with computed font sizes, elements carrying
aria-labels, and a CSS-selector query oracle (which can also model a throwing
selector via `QueryResult.err`). JS strings whose only relevant distinction from
`null`/absent is truthiness are modelled as `String` with `""` for the falsy
cases; genuinely structured optional values use `Option`. The JS regexes of the
text-analysis layer are hand-compiled to backtracking scanners over `List Char`,
with JS `\s`, `\b`, `[A-Z]` etc. mapped to the corresponding ASCII character
predicates.
-/

namespace JobDetector

/-- One mutable per-field slot of the detector's result accumulator:
`{ value: '', confidence: 0, source: '' }`. -/
structure FieldResult where
  value : String
  confidence : Nat
  source : String
deriving DecidableEq, Repr

/-- The four logical fields of the accumulator. -/
inductive Field
  | company
  | jobTitle
  | location
  | description
deriving DecidableEq, Repr

/-- The detector's result accumulator (`results` in `detect`). -/
structure Results where
  company : FieldResult
  jobTitle : FieldResult
  location : FieldResult
  description : FieldResult
deriving DecidableEq, Repr

/-- Dynamic field access `results[field]`. -/
def Results.get : Results → Field → FieldResult
  | r, .company => r.company
  | r, .jobTitle => r.jobTitle
  | r, .location => r.location
  | r, .description => r.description

/-- Dynamic field assignment `results[field] = x`. -/
def Results.set : Results → Field → FieldResult → Results
  | r, .company, x => { r with company := x }
  | r, .jobTitle, x => { r with jobTitle := x }
  | r, .location, x => { r with location := x }
  | r, .description, x => { r with description := x }

/-- The fresh accumulator allocated at the top of `detect`. -/
def initialResults : Results :=
  ⟨⟨"", 0, ""⟩, ⟨"", 0, ""⟩, ⟨"", 0, ""⟩, ⟨"", 0, ""⟩⟩

/-- JS `s.trim()`: drop whitespace from both ends (structural on the
character list, so that concrete documents evaluate inside the kernel). -/
def jsTrim (s : String) : String :=
  String.mk (((s.data.dropWhile Char.isWhitespace).reverse.dropWhile
    Char.isWhitespace).reverse)

/-- JS `s.toLowerCase()` (ASCII). -/
def lowerStr (s : String) : String :=
  String.mk (s.data.map Char.toLower)

/-- Collapse every whitespace run of a character list to a single `' '`
(the char-list core of JS `replace(/\s+/g, ' ')`). -/
def collapseWsAux : List Char → List Char
  | [] => []
  | [c] => if c.isWhitespace then [' '] else [c]
  | a :: b :: rest =>
    if a.isWhitespace then
      if b.isWhitespace then collapseWsAux (b :: rest)
      else ' ' :: collapseWsAux (b :: rest)
    else a :: collapseWsAux (b :: rest)

/-- JS `s.replace(/\s+/g, ' ')`. -/
def collapseWs (s : String) : String :=
  String.mk (collapseWsAux s.data)

/-- Match `pat` as a literal prefix of `l`, returning the rest. -/
def stripLead? : List Char → List Char → Option (List Char)
  | [], l => some l
  | _, [] => none
  | p :: ps, c :: cs => if p == c then stripLead? ps cs else none

/-- Case-insensitive variant of `stripLead?` (regex `/i` flag). -/
def stripLeadCI? : List Char → List Char → Option (List Char)
  | [], l => some l
  | _, [] => none
  | p :: ps, c :: cs => if p.toLower == c.toLower then stripLeadCI? ps cs else none

/-- Occurrence of `pat` as a contiguous sublist of `l`. -/
def containsSub : List Char → List Char → Bool
  | [], pat => (stripLead? pat []).isSome
  | l@(_ :: rest), pat => (stripLead? pat l).isSome || containsSub rest pat

/-- Substring containment, JS `s.includes(pat)`. -/
def strContains (s pat : String) : Bool :=
  containsSub s.data pat.data

/-- JS `s.split(',')` (accumulator-style, in order). -/
def splitCommaAux : List Char → List Char → List (List Char)
  | [], acc => [acc.reverse]
  | ',' :: rest, acc => acc.reverse :: splitCommaAux rest []
  | c :: rest, acc => splitCommaAux rest (c :: acc)

/-- JS `s.split(',')` as strings. -/
def splitComma (s : String) : List String :=
  (splitCommaAux s.data []).map String.mk

/--
The shared field-update primitive:

    updateField(results, field, value, confidence, source) {
      if (!value || value.trim().length === 0) return;
      const cleanValue = value.trim().replace(/\s+/g, ' ');
      if (confidence > results[field].confidence) {
        results[field] = { value: cleanValue, confidence, source };
      }
    }
-/
def updateField (results : Results) (field : Field) (value : String)
    (confidence : Nat) (source : String) : Results :=
  if (jsTrim value).length = 0 then results
  else
    let cleanValue := collapseWs (jsTrim value)
    if confidence > (results.get field).confidence then
      results.set field ⟨cleanValue, confidence, source⟩
    else results

/-- A parsed JSON-LD `jobLocation.address`: either a plain string or a
structured address. Absent/falsy sub-fields of the structured form are `""`. -/
inductive JsonAddr
  | str (s : String)
  | obj (addressLocality addressRegion addressCountry : String)
deriving DecidableEq, Repr

/-- A parsed JSON-LD `jobLocation`: a plain string or an object with an
optional `address`. -/
inductive JsonJobLoc
  | str (s : String)
  | obj (address : Option JsonAddr)
deriving DecidableEq, Repr

/-- JS truthiness of a `jobLocation` value (an empty string is falsy,
objects are truthy). -/
def jlTruthy : JsonJobLoc → Bool
  | .str s => s ≠ ""
  | .obj _ => true

/-- One parsed JSON-LD item. String properties that the detector only ever
tests for truthiness before use are plain `String`s with `""` for the
absent/falsy cases; in particular `hiringOrganizationName` is `""` exactly when
`item.hiringOrganization && item.hiringOrganization.name` is falsy. -/
structure JsonItem where
  atType : String
  title : String
  hiringOrganizationName : String
  jobLocation : Option JsonJobLoc
  description : String
deriving DecidableEq, Repr

/--
    parseJobLocation(jobLocation) {
      if (typeof jobLocation === 'string') return jobLocation;
      if (jobLocation.address) {
        const addr = jobLocation.address;
        if (typeof addr === 'string') return addr;
        const parts = [];
        if (addr.addressLocality) parts.push(addr.addressLocality);
        if (addr.addressRegion) parts.push(addr.addressRegion);
        if (parts.length > 0) return parts.join(', ');
        if (addr.addressCountry) return addr.addressCountry;
      }
      return null;
    }
-/
def parseJobLocation : JsonJobLoc → Option String
  | .str s => some s
  | .obj none => none
  | .obj (some (.str s)) => if s = "" then none else some s
  | .obj (some (.obj addressLocality addressRegion addressCountry)) =>
    let parts :=
      (if addressLocality ≠ "" then [addressLocality] else []) ++
      (if addressRegion ≠ "" then [addressRegion] else [])
    if parts.length > 0 then some (String.intercalate ", " parts)
    else if addressCountry ≠ "" then some addressCountry
    else none

/-- Result of `document.querySelector(sel)`: a thrown selector error, no
matching element, or an element with the given `textContent`. -/
inductive QueryResult
  | err
  | missing
  | found (textContent : String)
deriving DecidableEq, Repr

/-- Heading tag names matched by `querySelectorAll('h1, h2, h3')`. -/
inductive HTag
  | h1
  | h2
  | h3
deriving DecidableEq, Repr

/-- One heading element with its text and rendered font size
(`parseFloat(getComputedStyle(el).fontSize)`). -/
structure Heading where
  tag : HTag
  textContent : String
  fontSize : ℚ
deriving DecidableEq, Repr

/-- The read-only document handle the detector runs over. `jsonLdScripts`
lists the `script[type="application/ld+json"]` blocks in document order, each
`none` if `JSON.parse` throws on it, else the parsed item list (a non-array
block parses to a singleton list). `metaContent p` is the `content` attribute
of the first `meta[property=p], meta[name=p]` element. `headings` lists the
h1/h2/h3 elements in document order, and `query` answers arbitrary
`querySelector` calls. -/
structure Doc where
  jsonLdScripts : List (Option (List JsonItem))
  metaContent : String → Option String
  hostname : String
  title : String
  bodyText : String
  headings : List Heading
  ariaElements : List (String × String)
  query : String → QueryResult

/--
    findJobPostingSchema() {
      for each script: try { data = JSON.parse(...); items = isArray ? data : [data];
        for (item of items) if (item['@type'] === 'JobPosting') return item;
      } catch { continue; }
      return null;
    }
-/
def findJobPostingSchema (doc : Doc) : Option JsonItem :=
  doc.jsonLdScripts.findSome? fun script =>
    match script with
    | none => none
    | some items => items.find? fun item => item.atType == "JobPosting"

/-- JS truthiness of a nullable string (`null` and `""` are falsy). -/
def jsTruthy : Option String → Bool
  | none => false
  | some s => s ≠ ""

/-- JS `a || b` on nullable strings. -/
def jsOr (a b : Option String) : Option String :=
  if jsTruthy a then a else b

/-- `getMetaContent(property)`. -/
def getMetaContent (doc : Doc) (property : String) : Option String :=
  doc.metaContent property

/-- The record returned by `extractFromOpenGraph()`. -/
structure OgData where
  title : Option String
  siteName : Option String
  description : Option String

/--
    extractFromOpenGraph() {
      return { title: getMetaContent('og:title'), siteName: getMetaContent('og:site_name'),
               description: getMetaContent('og:description') || getMetaContent('description') };
    }
-/
def extractFromOpenGraph (doc : Doc) : OgData :=
  ⟨getMetaContent doc "og:title", getMetaContent doc "og:site_name",
   jsOr (getMetaContent doc "og:description") (getMetaContent doc "description")⟩

/--
Layer 1, JSON-LD part of `detectFromStructuredData`: if a JobPosting schema is
found, push its organization name, title, parsed location and description at
confidence 95.
-/
def jsonLdApply (doc : Doc) (results : Results) : Results :=
  match findJobPostingSchema doc with
  | none => results
  | some jsonLdData =>
    let results :=
      if jsonLdData.hiringOrganizationName ≠ "" then
        updateField results .company jsonLdData.hiringOrganizationName 95 "JSON-LD Schema"
      else results
    let results :=
      if jsonLdData.title ≠ "" then
        updateField results .jobTitle jsonLdData.title 95 "JSON-LD Schema"
      else results
    let results :=
      match jsonLdData.jobLocation with
      | none => results
      | some jl =>
        if jlTruthy jl then
          match parseJobLocation jl with
          | some location =>
            if location ≠ "" then updateField results .location location 95 "JSON-LD Schema"
            else results
          | none => results
        else results
    let results :=
      if jsonLdData.description ≠ "" then
        updateField results .description jsonLdData.description 95 "JSON-LD Schema"
      else results
    results

/--
Layer 1, OpenGraph part of `detectFromStructuredData`: apply the social-sharing
meta tags at confidence 85, each guarded by `confidence < 85`.
-/
def ogApply (doc : Doc) (results : Results) : Results :=
  let ogData := extractFromOpenGraph doc
  let results :=
    if jsTruthy ogData.title ∧ (results.get .jobTitle).confidence < 85 then
      updateField results .jobTitle (ogData.title.getD "") 85 "OpenGraph Meta"
    else results
  let results :=
    if jsTruthy ogData.siteName ∧ (results.get .company).confidence < 85 then
      updateField results .company (ogData.siteName.getD "") 85 "OpenGraph Meta"
    else results
  let results :=
    if jsTruthy ogData.description ∧ (results.get .description).confidence < 85 then
      updateField results .description (ogData.description.getD "") 85 "OpenGraph Meta"
    else results
  results

/-- Layer 1: `detectFromStructuredData` (JSON-LD schema, then OpenGraph). -/
def detectFromStructuredData (doc : Doc) (results : Results) : Results :=
  ogApply doc (jsonLdApply doc results)

/-- A site-specific selector pattern of layer 2. -/
structure SitePattern where
  company : String
  jobTitle : String
  location : String
  description : String

/-- The LinkedIn entry of the `patterns` table. -/
def linkedinPattern : SitePattern where
  company := ".topcard__org-name-link, .top-card-layout__card .topcard__flavor--black-link"
  jobTitle := ".topcard__title, .top-card-layout__title"
  location := ".topcard__flavor--bullet, .top-card-layout__second-subline"
  description := ".show-more-less-html__markup, .description__text"

/-- The Indeed entry of the `patterns` table. -/
def indeedPattern : SitePattern where
  company := "[data-company-name], .jobsearch-InlineCompanyRating-companyHeader, .icl-u-lg-mr--sm"
  jobTitle := ".jobsearch-JobInfoHeader-title, h1.icl-u-xs-mb--xs"
  location := "[data-testid=\"job-location\"], .jobsearch-JobInfoHeader-subtitle"
  description := "#jobDescriptionText, .jobsearch-jobDescriptionText"

/-- The Glassdoor entry of the `patterns` table. -/
def glassdoorPattern : SitePattern where
  company := "[data-test=\"employer-name\"], .EmployerProfile_employerName__QvlPJ"
  jobTitle := "[data-test=\"job-title\"], .JobDetails_jobTitle__cNuIa"
  location := "[data-test=\"location\"], .JobDetails_location__MbnUM"
  description := "[data-test=\"job-description\"], .JobDetails_jobDescription__uW_fK"

/-- The hostname-substring dispatch choosing `sitePattern` in
`detectFromSemanticHTML`. -/
def sitePatternFor (doc : Doc) : Option SitePattern :=
  let hostname := lowerStr doc.hostname
  if strContains hostname "linkedin.com" then some linkedinPattern
  else if strContains hostname "indeed.com" then some indeedPattern
  else if strContains hostname "glassdoor.com" then some glassdoorPattern
  else none

/-- `selectors.split(',').map(s => s.trim())`. -/
def splitSelectors (selectors : String) : List String :=
  (splitComma selectors).map jsTrim

/-- The selector loop of `trySelectors`: per selector, a thrown
`querySelector` or a missing element is skipped; an element with non-empty
trimmed text is pushed through `updateField`, and the loop stops as soon as the
field has reached the call's confidence. -/
def trySelectorsGo (doc : Doc) (field : Field) (confidence : Nat) (source : String) :
    List String → Results → Results
  | [], results => results
  | selector :: rest, results =>
    match doc.query selector with
    | .err => trySelectorsGo doc field confidence source rest results
    | .missing => trySelectorsGo doc field confidence source rest results
    | .found textContent =>
      if jsTrim textContent ≠ "" then
        let results := updateField results field (jsTrim textContent) confidence source
        if (results.get field).confidence ≥ confidence then results
        else trySelectorsGo doc field confidence source rest results
      else trySelectorsGo doc field confidence source rest results

/--
    trySelectors(results, field, selectors, confidence, source) {
      if (results[field].confidence >= confidence) return;
      for (selector of selectors.split(',').map(s => s.trim())) {
        try {
          const element = document.querySelector(selector);
          if (element && element.textContent.trim()) {
            updateField(results, field, element.textContent.trim(), confidence, source);
            if (results[field].confidence >= confidence) return;
          }
        } catch (e) { continue; }
      }
    }
-/
def trySelectors (doc : Doc) (results : Results) (field : Field) (selectors : String)
    (confidence : Nat) (source : String) : Results :=
  if (results.get field).confidence ≥ confidence then results
  else trySelectorsGo doc field confidence source (splitSelectors selectors) results

/-- The element loop of `tryAriaLabels`: per `[aria-label]` element with
non-empty trimmed text, route the text to company / job title / location by
label keywords, each at confidence 70 and guarded by `confidence < 70`. -/
def tryAriaLabelsGo : List (String × String) → Results → Results
  | [], results => results
  | (ariaLabel, textContent) :: rest, results =>
    let label := lowerStr ariaLabel
    let text := jsTrim textContent
    if text = "" then tryAriaLabelsGo rest results
    else
      let results :=
        if (strContains label "company" ∨ strContains label "employer") ∧
            (results.get .company).confidence < 70 then
          updateField results .company text 70 "ARIA Label"
        else results
      let results :=
        if (strContains label "job" ∨ strContains label "title" ∨
            strContains label "position") ∧ (results.get .jobTitle).confidence < 70 then
          updateField results .jobTitle text 70 "ARIA Label"
        else results
      let results :=
        if strContains label "location" ∧ (results.get .location).confidence < 70 then
          updateField results .location text 70 "ARIA Label"
        else results
      tryAriaLabelsGo rest results

/-- `tryAriaLabels(results)` over `document.querySelectorAll('[aria-label]')`. -/
def tryAriaLabels (doc : Doc) (results : Results) : Results :=
  tryAriaLabelsGo doc.ariaElements results

/-- The generic layer-2 selector list for company. -/
def genericCompanySelectors : String :=
  ".company-name, [data-company], .hiring-company, .employer-name"

/-- The generic layer-2 selector list for job title. -/
def genericJobTitleSelectors : String :=
  ".job-title, [data-job-title], .position-title, h1[class*=\"title\"]"

/-- The generic layer-2 selector list for location. -/
def genericLocationSelectors : String :=
  ".location, [data-location], .job-location, .work-location"

/-- The generic layer-2 selector list for description. -/
def genericDescriptionSelectors : String :=
  ".job-description, [data-description], .description, .job-details, [class*=\"description\"]"

/-- Layer 2: `detectFromSemanticHTML` (site-specific selectors at 80, generic
selectors at 75/70, then aria labels at 70). -/
def detectFromSemanticHTML (doc : Doc) (results : Results) : Results :=
  let results :=
    match sitePatternFor doc with
    | some sitePattern =>
      let results := trySelectors doc results .company sitePattern.company 80 "Known Site Pattern"
      let results := trySelectors doc results .jobTitle sitePattern.jobTitle 80 "Known Site Pattern"
      let results := trySelectors doc results .location sitePattern.location 80 "Known Site Pattern"
      let results :=
        if sitePattern.description ≠ "" then
          trySelectors doc results .description sitePattern.description 80 "Known Site Pattern"
        else results
      results
    | none => results
  let results := trySelectors doc results .company genericCompanySelectors 75 "Semantic HTML"
  let results := trySelectors doc results .jobTitle genericJobTitleSelectors 75 "Semantic HTML"
  let results := trySelectors doc results .location genericLocationSelectors 75 "Semantic HTML"
  let results := trySelectors doc results .description genericDescriptionSelectors 70 "Semantic HTML"
  tryAriaLabels doc results

/-- JS regex word character (`\w`): `[A-Za-z0-9_]`. -/
def isWordChar (c : Char) : Bool :=
  c.isAlpha || c.isDigit || c == '_'

/-- The character class `[A-Za-z0-9\s&.,-]` of the company patterns. -/
def companyClass (c : Char) : Bool :=
  c.isAlpha || c.isDigit || c.isWhitespace || c == '&' || c == '.' || c == ',' || c == '-'

/-- Length of the longest prefix satisfying `p`. -/
def countWhile (p : Char → Bool) : List Char → Nat
  | [] => 0
  | c :: rest => if p c then countWhile p rest + 1 else 0

/-- Regex `\b` between a character with word-ness `lastIsWord` and the rest of
the input (end of input counts as a non-word side). -/
def boundaryAfter (lastIsWord : Bool) : List Char → Bool
  | [] => lastIsWord
  | c :: _ => lastIsWord != isWordChar c

/-- The terminator `(?:\.|,|\s|$)` of the `at/@` company pattern. -/
def p1Term : List Char → Bool
  | [] => true
  | c :: _ => c == '.' || c == ',' || c.isWhitespace

/-- Greedy `{2,50}` quantifier of the `at/@` company pattern: try the span
lengths from the longest downward, each followed by the terminator. `c0` is the
`[A-Z]` head of the capture; the returned list is capture group 1. -/
def p1TryLen : Nat → Char → List Char → Option (List Char)
  | 0, _, _ => none
  | 1, _, _ => none
  | m + 2, c0, l =>
    if p1Term (l.drop (m + 2)) then some (c0 :: l.take (m + 2))
    else p1TryLen (m + 1) c0 l

/-- After the whitespace of the `at/@` pattern: `[A-Z][A-Za-z0-9\s&.,-]{2,50}`
followed by the terminator. -/
def p1AfterWs (l : List Char) : Option (List Char) :=
  match l with
  | [] => none
  | c :: rest =>
    if c.isUpper then p1TryLen (min 50 (countWhile companyClass rest)) c rest
    else none

/-- Greedy `\s+` of the `at/@` pattern: try the whitespace-run lengths from
`k` downward (at least one). -/
def p1TryWs : Nat → List Char → Option (List Char)
  | 0, _ => none
  | k + 1, l => (p1AfterWs (l.drop (k + 1))).orElse fun _ => p1TryWs k l

/-- Try the whole pattern `(?:at|@)\s+([A-Z][A-Za-z0-9\s&.,-]{2,50})(?:\.|,|\s|$)`
anchored at the head of `l`, returning capture group 1. -/
def p1MatchAt : List Char → Option (List Char)
  | 'a' :: 't' :: rest => p1TryWs (countWhile Char.isWhitespace rest) rest
  | '@' :: rest => p1TryWs (countWhile Char.isWhitespace rest) rest
  | _ => none

/-- Leftmost match of the `at/@` company pattern (group 1 of
`atPattern.exec(text)`). -/
def scanP1 : List Char → Option (List Char)
  | [] => none
  | l@(_ :: rest) => (p1MatchAt l).orElse fun _ => scanP1 rest

/-- The legal-suffix alternation `(Inc\.?|LLC|Ltd\.?|Corp\.?|Corporation|Company)`
expanded into the engine's try order (each optional dot greedy). -/
def suffixAlts : List String :=
  ["Inc.", "Inc", "LLC", "Ltd.", "Ltd", "Corp.", "Corp", "Corporation", "Company"]

/-- Match one alternative of `alts` at the head of `l` (case-sensitively when
`ci = false`), requiring `\b` after it; returns the matched characters. -/
def tryAlts (ci : Bool) (alts : List String) (l : List Char) : Option (List Char) :=
  alts.findSome? fun alt =>
    match (if ci then stripLeadCI? alt.data l else stripLead? alt.data l) with
    | some rest =>
      if boundaryAfter (isWordChar (alt.data.getLastD ' ')) rest then some alt.data else none
    | none => none

/-- Greedy `\s+` before the legal suffix: try run lengths from `k` downward,
returning the consumed whitespace and the matched suffix alternative. -/
def p2TryWs : Nat → List Char → Option (List Char × List Char)
  | 0, _ => none
  | k + 1, l =>
    (match tryAlts false suffixAlts (l.drop (k + 1)) with
     | some alt => some (l.take (k + 1), alt)
     | none => none).orElse fun _ => p2TryWs k l

/-- Lazy `{2,50}?` of the suffix pattern: try span length `m` then extend,
`remaining` bounding the number of extensions left. On success returns the
whole `match[0]` (capture 1, the whitespace, and the suffix). -/
def p2TryLenAsc : Nat → Nat → Char → List Char → Option (List Char)
  | remaining, m, c0, l =>
    let attempt :=
      match p2TryWs (countWhile Char.isWhitespace (l.drop m)) (l.drop m) with
      | some (ws, alt) => some (c0 :: l.take m ++ ws ++ alt)
      | none => none
    match attempt, remaining with
    | some r, _ => some r
    | none, 0 => none
    | none, rem + 1 => p2TryLenAsc rem (m + 1) c0 l

/-- Scan for the leftmost match of
`\b([A-Z][A-Za-z0-9\s&.,-]{2,50}?)\s+(Inc\.?|LLC|Ltd\.?|Corp\.?|Corporation|Company)\b`,
carrying the previous character for the leading `\b`; returns `match[0]`. -/
def scanP2 : Option Char → List Char → Option (List Char)
  | _, [] => none
  | prev, c :: rest =>
    let boundary := match prev with | none => true | some p => !isWordChar p
    let here :=
      if boundary && c.isUpper then
        let maxm := min 50 (countWhile companyClass rest)
        if maxm ≥ 2 then p2TryLenAsc (maxm - 2) 2 c rest else none
      else none
    here.orElse fun _ => scanP2 (some c) rest

/--
    cleanCompanyName(name) {
      return name.trim().replace(/\s+/g, ' ').replace(/[,.]$/, '');
    }
-/
def cleanCompanyName (name : String) : String :=
  let s := collapseWs (jsTrim name)
  if s.data.getLastD ' ' == ',' || s.data.getLastD ' ' == '.' then
    String.mk s.data.dropLast
  else s

/-- `/\b(Inc\.?|LLC|Ltd\.?|Corp\.?|Corporation|Company)\b/i.test(text)`,
carrying the previous character for the leading `\b`. -/
def suffixTestCI : Option Char → List Char → Bool
  | _, [] => false
  | prev, l@(c :: rest) =>
    let boundary := match prev with | none => true | some p => !isWordChar p
    (boundary && (tryAlts true suffixAlts l).isSome) || suffixTestCI (some c) rest

/-- The stop-word alternation of the sentence test. -/
def stopAlts : List String := ["the", "a", "an", "is", "are", "was", "were"]

/-- `/\s(the|a|an|is|are|was|were)\s/i.test(text)`. -/
def sentenceStopTest : List Char → Bool
  | [] => false
  | c :: rest =>
    (c.isWhitespace && stopAlts.any fun alt =>
      match stripLeadCI? alt.data rest with
      | some r =>
        match r with
        | d :: _ => d.isWhitespace
        | [] => false
      | none => false) || sentenceStopTest rest

/--
    looksLikeCompanyName(text) {
      if (text.length < 2 || text.length > 50) return false;
      if (/\b(Inc\.?|LLC|Ltd\.?|Corp\.?|Corporation|Company)\b/i.test(text)) return true;
      if (/^[A-Z]/.test(text) && !/\s(the|a|an|is|are|was|were)\s/i.test(text)) return true;
      return false;
    }
-/
def looksLikeCompanyName (text : String) : Bool :=
  if text.length < 2 ∨ text.length > 50 then false
  else if suffixTestCI none text.data then true
  else if (match text.data with | c :: _ => c.isUpper | [] => false) &&
      !sentenceStopTest text.data then true
  else false

/-- `findCompanyName(text, headings)`: the `at/@` pattern, then the
legal-suffix pattern, then medium-sized company-looking headings. -/
def findCompanyName (text : String) (headings : List Heading) : Option String :=
  match scanP1 text.data with
  | some group1 => some (cleanCompanyName (String.mk group1))
  | none =>
  match scanP2 none text.data with
  | some match0 => some (cleanCompanyName (String.mk match0))
  | none =>
    headings.findSome? fun heading =>
      let headingText := jsTrim heading.textContent
      if headingText.length > 3 ∧ headingText.length < 50 then
        if heading.fontSize > 14 ∧ heading.fontSize < 24 then
          if looksLikeCompanyName headingText then some headingText else none
        else none
      else none

/-- The fixed job-keyword list of `findJobTitle`. -/
def jobKeywords : List String :=
  ["engineer", "developer", "designer", "manager", "analyst", "specialist",
   "director", "coordinator", "consultant", "architect", "lead", "senior",
   "junior", "intern", "associate", "administrator", "technician", "officer"]

/--
    containsJobKeyword(text, keywords) {
      const textLower = text.toLowerCase();
      return keywords.some(keyword => textLower.includes(keyword));
    }
-/
def containsJobKeyword (text : String) (keywords : List String) : Bool :=
  let textLower := lowerStr text
  keywords.any fun keyword => strContains textLower keyword

/-- `findJobTitle(headings, text)`: all `h1` elements first (keyword substring
match on the trimmed text), then any heading with text length in (5, 100),
a keyword match, and font size above 18px. The `text` parameter is shadowed
inside both loops and never read. -/
def findJobTitle (doc : Doc) (headings : List Heading) (text : String) : Option String :=
  let h1Elements := doc.headings.filter fun h => h.tag == HTag.h1
  match h1Elements.findSome? (fun h1 =>
      let text := jsTrim h1.textContent
      if containsJobKeyword text jobKeywords then some text else none) with
  | some t => some t
  | none =>
    headings.findSome? fun heading =>
      let text := jsTrim heading.textContent
      if text.length > 5 ∧ text.length < 100 ∧ containsJobKeyword text jobKeywords then
        if heading.fontSize > 18 then some text else none
      else none

/-- `,\s*([A-Z]{2})\b` of the city/state pattern: greedy `\s*` tried from run
length `k` downward, then two capitals and a trailing `\b`; returns group 2. -/
def csTryWs : Nat → List Char → Option (List Char)
  | k, l =>
    let attempt :=
      match l.drop k with
      | a :: b :: rest2 =>
        if a.isUpper ∧ b.isUpper ∧ boundaryAfter true rest2 then some [a, b] else none
      | _ => none
    match attempt, k with
    | some r, _ => some r
    | none, 0 => none
    | none, k' + 1 => csTryWs k' l

/-- The comma and state-abbreviation tail of the city/state pattern applied at
`l`, paired with the already-captured group 1. -/
def csComma (group1 : List Char) : List Char → Option (List Char × List Char)
  | ',' :: rest =>
    (csTryWs (countWhile Char.isWhitespace rest) rest).map fun g2 => (group1, g2)
  | _ => none

/-- Greedy `(?:\s[A-Z][a-z]+)*` of the city/state pattern: extend group 1 by
one more ` Word` unit if possible (preferring the longer parse), otherwise try
the comma tail here. The fuel argument bounds the number of extensions; since
every extension consumes at least three characters, starting it at the length
of the remaining text makes exhaustion unreachable (structural recursion keeps
the definition kernel-reducible). -/
def csStar : Nat → List Char → List Char → Option (List Char × List Char)
  | 0, group1, l => csComma group1 l
  | fuel + 1, group1, c :: d :: rest =>
    if c.isWhitespace && d.isUpper && countWhile Char.isLower rest > 0 then
      let low := countWhile Char.isLower rest
      (csStar fuel (group1 ++ c :: d :: rest.take low) (rest.drop low)).orElse fun _ =>
        csComma group1 (c :: d :: rest)
    else csComma group1 (c :: d :: rest)
  | _ + 1, group1, l => csComma group1 l

/-- Scan for the leftmost match of
`\b([A-Z][a-z]+(?:\s[A-Z][a-z]+)*),\s*([A-Z]{2})\b`, carrying the previous
character for the leading `\b`; returns groups 1 and 2. -/
def scanCityState : Option Char → List Char → Option (List Char × List Char)
  | _, [] => none
  | prev, c :: rest =>
    let boundary := match prev with | none => true | some p => !isWordChar p
    let here :=
      if boundary && c.isUpper then
        let low := countWhile Char.isLower rest
        if low > 0 then csStar rest.length (c :: rest.take low) (rest.drop low) else none
      else none
    here.orElse fun _ => scanCityState (some c) rest

/-- `/\b(remote|work from home|wfh)\b/i.test(text)`, carrying the previous
character for the leading `\b`. -/
def remoteTest : Option Char → List Char → Bool
  | _, [] => false
  | prev, l@(c :: rest) =>
    let boundary := match prev with | none => true | some p => !isWordChar p
    (boundary && (tryAlts true ["remote", "work from home", "wfh"] l).isSome) ||
      remoteTest (some c) rest

/-- The class `[a-zA-Z\s,.-]` of the `Location:` pattern (under `/i` the
letter ranges cover all ASCII letters). -/
def locClass (c : Char) : Bool :=
  c.isAlpha || c.isWhitespace || c == ',' || c == '.' || c == '-'

/-- Try `location:?\s*([A-Z][a-zA-Z\s,.-]+(?:,\s*[A-Z]{2})?)` (all of it under
`/i`) anchored at the head of `l`; returns group 1. With `/i` the leading
`[A-Z]` accepts any letter, and since `,`, `\s` and letters all lie in the
greedy inner class, the optional state tail never extends a maximal class run. -/
def locLabelMatchAt (l : List Char) : Option (List Char) :=
  match stripLeadCI? "location".data l with
  | none => none
  | some rest =>
    let rest := match rest with | ':' :: r => r | _ => rest
    let rest2 := rest.drop (countWhile Char.isWhitespace rest)
    match rest2 with
    | c :: r3 =>
      if c.isAlpha then
        let run := countWhile locClass r3
        if run ≥ 1 then some (c :: r3.take run) else none
      else none
    | [] => none

/-- Leftmost match of the `Location:` label pattern; returns group 1. -/
def scanLocLabel : List Char → Option (List Char)
  | [] => none
  | l@(_ :: rest) => (locLabelMatchAt l).orElse fun _ => scanLocLabel rest

/-- The fixed U.S. state list of `findLocation`. -/
def statesList : List String :=
  ["California", "New York", "Texas", "Florida", "Illinois", "Pennsylvania",
   "Ohio", "Georgia", "North Carolina", "Michigan", "Massachusetts", "Washington"]

/-- `new RegExp("\\b" + state + "\\b", "i").test(text)`, carrying the previous
character for the leading `\b`. -/
def stateTest (state : String) : Option Char → List Char → Bool
  | _, [] => false
  | prev, l@(c :: rest) =>
    let boundary := match prev with | none => true | some p => !isWordChar p
    (boundary && (tryAlts true [state] l).isSome) || stateTest state (some c) rest

/-- `findLocation(text)`: the City, ST pattern, then the remote test, then the
`Location:` label, then the state-name list. -/
def findLocation (text : String) : Option String :=
  match scanCityState none text.data with
  | some (g1, g2) => some (String.mk g1 ++ ", " ++ String.mk g2)
  | none =>
  if remoteTest none text.data then some "Remote"
  else
  match scanLocLabel text.data with
  | some g1 =>
    if String.mk g1 ≠ "" then some (jsTrim (String.mk g1)) else none
  | none =>
  match statesList.find? (fun state => stateTest state none text.data) with
  | some state => some state
  | none => none

/-- Company step of layer 3, guarded by `confidence < 60`. -/
def textCompanyStep (doc : Doc) (results : Results) : Results :=
  if (results.get .company).confidence < 60 then
    match findCompanyName doc.bodyText doc.headings with
    | some company =>
      if company ≠ "" then updateField results .company company 60 "Text Analysis"
      else results
    | none => results
  else results

/-- Job-title step of layer 3, guarded by `confidence < 60`. -/
def textJobTitleStep (doc : Doc) (results : Results) : Results :=
  if (results.get .jobTitle).confidence < 60 then
    match findJobTitle doc doc.headings doc.bodyText with
    | some jobTitle =>
      if jobTitle ≠ "" then updateField results .jobTitle jobTitle 60 "Text Analysis"
      else results
    | none => results
  else results

/-- Location step of layer 3, guarded by `confidence < 60`. -/
def textLocationStep (doc : Doc) (results : Results) : Results :=
  if (results.get .location).confidence < 60 then
    match findLocation doc.bodyText with
    | some location =>
      if location ≠ "" then updateField results .location location 60 "Text Analysis"
      else results
    | none => results
  else results

/-- Layer 3: `detectFromTextAnalysis` over the body text and the h1/h2/h3
headings, each field guarded by `confidence < 60`. -/
def detectFromTextAnalysis (doc : Doc) (results : Results) : Results :=
  textLocationStep doc (textJobTitleStep doc (textCompanyStep doc results))

/-- `document.title.match(/^([^-|]+)/)`: group 1 is the non-empty maximal
prefix free of `-` and `|` (`null` when the title starts with one of them or
is empty). -/
def titleBeforeSep (title : String) : Option String :=
  let m := String.mk (title.data.takeWhile fun c => !(c == '-' || c == '|'))
  if m = "" then none else some m

/-- `hostname.replace(/^www\./, '')`. -/
def stripWww (hostname : String) : String :=
  match stripLead? "www.".data hostname.data with
  | some rest => String.mk rest
  | none => hostname

/-- `company.charAt(0).toUpperCase() + company.slice(1)`. -/
def capitalizeFirst (s : String) : String :=
  match s.data with
  | [] => ""
  | c :: rest => String.mk (c.toUpper :: rest)

/-- The hostname-derived company candidate of the fallback layer:
`hostname.replace(/^www\./, '').split('.')[0]` capitalized. -/
def domainCompany (hostname : String) : String :=
  capitalizeFirst (String.mk ((stripWww hostname).data.takeWhile fun c => !(c == '.')))

/-- First fallback step: the page title before the first `-` or `|` as job
title at 40, if the job title is still below 40. -/
def fallbackPageTitle (doc : Doc) (results : Results) : Results :=
  if (results.get .jobTitle).confidence < 40 then
    match titleBeforeSep doc.title with
    | some m =>
      if jsTrim m ≠ "" then updateField results .jobTitle (jsTrim m) 40 "Page Title"
      else results
    | none => results
  else results

/-- Second fallback step: the hostname-derived company at 35, if the company
is still below 40. -/
def fallbackDomain (doc : Doc) (results : Results) : Results :=
  if (results.get .company).confidence < 40 then
    updateField results .company (domainCompany doc.hostname) 35 "Domain Name"
  else results

/-- Third fallback step: the first h1's text as job title at 35, if the job
title is still below 40. -/
def fallbackFirstH1 (doc : Doc) (results : Results) : Results :=
  if (results.get .jobTitle).confidence < 40 then
    match doc.headings.find? (fun h => h.tag == HTag.h1) with
    | some firstH1 =>
      if jsTrim firstH1.textContent ≠ "" then
        updateField results .jobTitle (jsTrim firstH1.textContent) 35 "First H1"
      else results
    | none => results
  else results

/-- Layer 4: `applyFallbacks` (page title before `-`/`|` at 40, hostname-derived
company at 35, first h1 text at 35; the job-title steps guarded by
`confidence < 40`, the company step by `confidence < 40`). -/
def applyFallbacks (doc : Doc) (results : Results) : Results :=
  fallbackFirstH1 doc (fallbackDomain doc (fallbackPageTitle doc results))

/-- The run of all four layers over a fresh accumulator. -/
def detectResults (doc : Doc) : Results :=
  applyFallbacks doc
    (detectFromTextAnalysis doc
      (detectFromSemanticHTML doc
        (detectFromStructuredData doc initialResults)))

/-- The `confidence` map of the returned object. -/
structure ConfMap where
  company : Nat
  jobTitle : Nat
  location : Nat
  description : Nat
deriving DecidableEq, Repr

/-- The `sources` map of the returned object. -/
structure SrcMap where
  company : String
  jobTitle : String
  location : String
  description : String
deriving DecidableEq, Repr

/-- The object returned by `detect()`. -/
structure DetectionOutput where
  company : String
  jobTitle : String
  location : String
  description : String
  confidence : ConfMap
  sources : SrcMap
deriving DecidableEq, Repr

/-- Field lookup in the `confidence` map. -/
def ConfMap.get : ConfMap → Field → Nat
  | m, .company => m.company
  | m, .jobTitle => m.jobTitle
  | m, .location => m.location
  | m, .description => m.description

/-- Field lookup in the `sources` map. -/
def SrcMap.get : SrcMap → Field → String
  | m, .company => m.company
  | m, .jobTitle => m.jobTitle
  | m, .location => m.location
  | m, .description => m.description

/-- Field lookup among the four value components. -/
def DetectionOutput.valueOf : DetectionOutput → Field → String
  | o, .company => o.company
  | o, .jobTitle => o.jobTitle
  | o, .location => o.location
  | o, .description => o.description

/-- `JobDetector.detect()`: run the four layers and collapse the accumulator
into the value/confidence/source maps. -/
def detect (doc : Doc) : DetectionOutput :=
  let results := detectResults doc
  { company := results.company.value
    jobTitle := results.jobTitle.value
    location := results.location.value
    description := results.description.value
    confidence := ⟨results.company.confidence, results.jobTitle.confidence,
                   results.location.confidence, results.description.confidence⟩
    sources := ⟨results.company.source, results.jobTitle.source,
                results.location.source, results.description.source⟩ }

/-! ### Candidate-list view of the detector

Every write the four layers perform goes through `updateField`, and each
attempted write is one *candidate* `(value, confidence, source)`. The
per-field candidate lists below are read off the layer code; the fold
characterization (`detectResults_get_eq_fold`) states that the final slot of
each field is exactly the left fold of the one-field update primitive over
that field's candidates, which turns the confidence-resolution claims into
statements about this fold. -/

/-- One attempted field write. -/
structure Cand where
  value : String
  confidence : Nat
  source : String
deriving DecidableEq, Repr

/-- `updateField` projected onto the single field it may change. -/
def applyCand (r : FieldResult) (c : Cand) : FieldResult :=
  if (jsTrim c.value).length = 0 then r
  else if c.confidence > r.confidence then ⟨collapseWs (jsTrim c.value), c.confidence, c.source⟩
  else r

/-- The empty slot every field starts from. -/
def initField : FieldResult := ⟨"", 0, ""⟩

/-- Candidates of the JSON-LD part of layer 1. -/
def jsonLdCands (doc : Doc) (f : Field) : List Cand :=
  match findJobPostingSchema doc with
  | none => []
  | some item =>
    match f with
    | .company =>
      if item.hiringOrganizationName ≠ "" then
        [⟨item.hiringOrganizationName, 95, "JSON-LD Schema"⟩] else []
    | .jobTitle =>
      if item.title ≠ "" then [⟨item.title, 95, "JSON-LD Schema"⟩] else []
    | .location =>
      match item.jobLocation with
      | none => []
      | some jl =>
        if jlTruthy jl then
          match parseJobLocation jl with
          | some location => if location ≠ "" then [⟨location, 95, "JSON-LD Schema"⟩] else []
          | none => []
        else []
    | .description =>
      if item.description ≠ "" then [⟨item.description, 95, "JSON-LD Schema"⟩] else []

/-- Candidates of the OpenGraph part of layer 1. -/
def ogCands (doc : Doc) (f : Field) : List Cand :=
  let ogData := extractFromOpenGraph doc
  match f with
  | .company =>
    if jsTruthy ogData.siteName then [⟨ogData.siteName.getD "", 85, "OpenGraph Meta"⟩] else []
  | .jobTitle =>
    if jsTruthy ogData.title then [⟨ogData.title.getD "", 85, "OpenGraph Meta"⟩] else []
  | .location => []
  | .description =>
    if jsTruthy ogData.description then [⟨ogData.description.getD "", 85, "OpenGraph Meta"⟩] else []

/-- Candidates of one `trySelectors` call: every selector whose query finds an
element with non-empty trimmed text, at the call's confidence. -/
def selCandList (doc : Doc) (confidence : Nat) (source : String) (sels : List String) :
    List Cand :=
  sels.filterMap fun selector =>
    match doc.query selector with
    | .found textContent =>
      if jsTrim textContent ≠ "" then some ⟨jsTrim textContent, confidence, source⟩ else none
    | _ => none

/-- Candidates of the site-specific selector block of layer 2. -/
def siteCands (doc : Doc) (f : Field) : List Cand :=
  match sitePatternFor doc with
  | none => []
  | some sitePattern =>
    match f with
    | .company => selCandList doc 80 "Known Site Pattern" (splitSelectors sitePattern.company)
    | .jobTitle => selCandList doc 80 "Known Site Pattern" (splitSelectors sitePattern.jobTitle)
    | .location => selCandList doc 80 "Known Site Pattern" (splitSelectors sitePattern.location)
    | .description =>
      if sitePattern.description ≠ "" then
        selCandList doc 80 "Known Site Pattern" (splitSelectors sitePattern.description)
      else []

/-- Candidates of the generic selector block of layer 2. -/
def genericCands (doc : Doc) (f : Field) : List Cand :=
  match f with
  | .company => selCandList doc 75 "Semantic HTML" (splitSelectors genericCompanySelectors)
  | .jobTitle => selCandList doc 75 "Semantic HTML" (splitSelectors genericJobTitleSelectors)
  | .location => selCandList doc 75 "Semantic HTML" (splitSelectors genericLocationSelectors)
  | .description => selCandList doc 70 "Semantic HTML" (splitSelectors genericDescriptionSelectors)

/-- Whether an aria label routes to a given field. -/
def ariaLabelHits (label : String) (f : Field) : Bool :=
  match f with
  | .company => strContains (lowerStr label) "company" || strContains (lowerStr label) "employer"
  | .jobTitle =>
    strContains (lowerStr label) "job" || strContains (lowerStr label) "title" ||
      strContains (lowerStr label) "position"
  | .location => strContains (lowerStr label) "location"
  | .description => false

/-- Candidates of the aria-label block of layer 2. -/
def ariaCands (els : List (String × String)) (f : Field) : List Cand :=
  els.filterMap fun el =>
    if jsTrim el.2 ≠ "" ∧ ariaLabelHits el.1 f then some ⟨jsTrim el.2, 70, "ARIA Label"⟩
    else none

/-- Candidates of layer 3. -/
def textCands (doc : Doc) (f : Field) : List Cand :=
  match f with
  | .company =>
    match findCompanyName doc.bodyText doc.headings with
    | some company => if company ≠ "" then [⟨company, 60, "Text Analysis"⟩] else []
    | none => []
  | .jobTitle =>
    match findJobTitle doc doc.headings doc.bodyText with
    | some jobTitle => if jobTitle ≠ "" then [⟨jobTitle, 60, "Text Analysis"⟩] else []
    | none => []
  | .location =>
    match findLocation doc.bodyText with
    | some location => if location ≠ "" then [⟨location, 60, "Text Analysis"⟩] else []
    | none => []
  | .description => []

/-- Candidates of layer 4. -/
def fallbackCands (doc : Doc) (f : Field) : List Cand :=
  match f with
  | .company => [⟨domainCompany doc.hostname, 35, "Domain Name"⟩]
  | .jobTitle =>
    (match titleBeforeSep doc.title with
     | some m => if jsTrim m ≠ "" then [⟨jsTrim m, 40, "Page Title"⟩] else []
     | none => []) ++
    (match doc.headings.find? (fun h => h.tag == HTag.h1) with
     | some firstH1 =>
       if jsTrim firstH1.textContent ≠ "" then [⟨jsTrim firstH1.textContent, 35, "First H1"⟩]
       else []
     | none => [])
  | .location => []
  | .description => []

/-- All candidates a field sees, in program order. -/
def fieldCandidates (doc : Doc) (f : Field) : List Cand :=
  jsonLdCands doc f ++ ogCands doc f ++ siteCands doc f ++ genericCands doc f ++
    ariaCands doc.ariaElements f ++ textCands doc f ++ fallbackCands doc f

/-- One step of the confidence bound: take the candidate's confidence when it
is a non-empty match strictly above the running bound. -/
def confStep (m : Nat) (c : Cand) : Nat :=
  if jsTrim c.value ≠ "" ∧ m < c.confidence then c.confidence else m

/-- The maximum confidence among the non-empty-match candidates of a list
(zero when there is none). -/
def maxValidConf (cs : List Cand) : Nat :=
  cs.foldl confStep 0

/-! ### Concrete documents used by the claims -/

/-- A document with no signals at all. -/
def emptyDoc : Doc where
  jsonLdScripts := []
  metaContent := fun _ => none
  hostname := ""
  title := ""
  bodyText := ""
  headings := []
  ariaElements := []
  query := fun _ => .missing

/-- Only signals: the page title and the hostname (the fallback-layer test
document). -/
def c2doc : Doc :=
  { emptyDoc with hostname := "jobs.acme.com", title := "DevOps Lead - Acme Careers" }

/-- The JobPosting schema item of the structured-data test document. -/
def c4item : JsonItem :=
  ⟨"JobPosting", "Senior Engineer", "Acme Corp",
   some (JsonJobLoc.obj (some (JsonAddr.obj "Austin" "TX" ""))), ""⟩

/-- Only signal: one JSON-LD block with a JobPosting schema. -/
def c4doc : Doc := { emptyDoc with jsonLdScripts := [some [c4item]] }

/-- Only signal: body text with a legal-entity suffix and a City, ST span. -/
def c6doc : Doc :=
  { emptyDoc with bodyText := "Join Acme Inc as a Senior Engineer in Austin, TX" }

/-- A document whose only heading is an `h2` reading "lead" at 20px: the
keyword matches and the font size exceeds 18px, but the text is only four
characters long. -/
def c7doc : Doc := { emptyDoc with headings := [⟨.h2, "lead", 20⟩] }

/-! ### The job-title scan as the claim words it -/

/-- Modelled from the claim's wording of the layer-3 job-title scan: all `h1`
elements first (first keyword match wins), then the other headings (h2/h3),
returning the first with a keyword match and font size above 18px — with no
condition on the text's length. -/
def findJobTitleClaim (doc : Doc) : Option String :=
  match (doc.headings.filter fun h => h.tag == HTag.h1).findSome? (fun h1 =>
      let text := jsTrim h1.textContent
      if containsJobKeyword text jobKeywords then some text else none) with
  | some t => some t
  | none =>
    (doc.headings.filter fun h => h.tag == HTag.h2 || h.tag == HTag.h3).findSome? fun heading =>
      let text := jsTrim heading.textContent
      if containsJobKeyword text jobKeywords then
        if heading.fontSize > 18 then some text else none
      else none

/-- The claim's wording amended by the length filter the code applies in its
second scan: the heading's trimmed text must be longer than 5 and shorter than
100 characters. -/
def findJobTitleClaimAmended (doc : Doc) : Option String :=
  match (doc.headings.filter fun h => h.tag == HTag.h1).findSome? (fun h1 =>
      let text := jsTrim h1.textContent
      if containsJobKeyword text jobKeywords then some text else none) with
  | some t => some t
  | none =>
    (doc.headings.filter fun h => h.tag == HTag.h2 || h.tag == HTag.h3).findSome? fun heading =>
      let text := jsTrim heading.textContent
      if text.length > 5 ∧ text.length < 100 ∧ containsJobKeyword text jobKeywords then
        if heading.fontSize > 18 then some text else none
      else none

/-! ### Basic projection lemmas -/

theorem get_set_same (r : Results) (f : Field) (x : FieldResult) :
    (r.set f x).get f = x := by
  cases f <;> rfl

theorem get_set_ne (r : Results) (f g : Field) (x : FieldResult) (h : g ≠ f) :
    (r.set f x).get g = r.get g := by
  cases f <;> cases g <;> first
    | rfl
    | exact absurd rfl h

theorem updateField_get (r : Results) (f : Field) (v : String) (c : Nat) (s : String) :
    (updateField r f v c s).get f = applyCand (r.get f) ⟨v, c, s⟩ := by
  unfold updateField applyCand
  split
  · rfl
  · dsimp only
    split
    · exact get_set_same r f _
    · rfl

theorem updateField_get_ne (r : Results) (f g : Field) (v : String) (c : Nat) (s : String)
    (h : g ≠ f) : (updateField r f v c s).get g = r.get g := by
  unfold updateField
  split
  · rfl
  · dsimp only
    split
    · exact get_set_ne r f g _ h
    · rfl

theorem applyCand_of_le (r : FieldResult) (c : Cand) (h : c.confidence ≤ r.confidence) :
    applyCand r c = r := by
  unfold applyCand
  split
  · rfl
  · split
    · omega
    · rfl

theorem str_length_zero_iff (s : String) : s.length = 0 ↔ s = "" := by
  cases s with
  | mk l =>
    show l.length = 0 ↔ _
    rw [List.length_eq_zero]
    constructor
    · intro h
      rw [h]
    · intro h
      have := congrArg String.data h
      simpa using this

theorem applyCand_confidence (r : FieldResult) (c : Cand) :
    (applyCand r c).confidence =
      if jsTrim c.value ≠ "" ∧ r.confidence < c.confidence then c.confidence
      else r.confidence := by
  unfold applyCand
  by_cases h0 : (jsTrim c.value).length = 0
  · have hval : jsTrim c.value = "" := (str_length_zero_iff _).mp h0
    simp [h0, hval]
  · have hne : jsTrim c.value ≠ "" := fun h => h0 ((str_length_zero_iff _).mpr h)
    simp only [if_neg h0]
    by_cases hlt : r.confidence < c.confidence
    · simp [hlt, hne]
    · simp [hlt, hne]

theorem applyCand_confidence_mono (r : FieldResult) (c : Cand) :
    r.confidence ≤ (applyCand r c).confidence := by
  rw [applyCand_confidence]
  split
  · omega
  · exact Nat.le_refl _

/-! ### The resolution fold -/

theorem confStep_eq_max (b : Nat) (c : Cand) :
    confStep b c = if jsTrim c.value ≠ "" then max b c.confidence else b := by
  unfold confStep
  by_cases hv : jsTrim c.value = "" <;> by_cases hb : b < c.confidence <;>
    simp [hv, hb] <;> omega

theorem foldl_confStep_eq_max (cs : List Cand) :
    ∀ b : Nat, cs.foldl confStep b = max b (maxValidConf cs) := by
  induction cs with
  | nil => intro b; simp [maxValidConf]
  | cons c cs ih =>
    intro b
    show (cs.foldl confStep (confStep b c)) = _
    rw [ih (confStep b c)]
    have h0 : maxValidConf (c :: cs) = cs.foldl confStep (confStep 0 c) := rfl
    rw [h0, ih (confStep 0 c), confStep_eq_max, confStep_eq_max]
    split
    · omega
    · omega

theorem foldl_applyCand_confidence (cs : List Cand) :
    ∀ r : FieldResult, (cs.foldl applyCand r).confidence = cs.foldl confStep r.confidence := by
  induction cs with
  | nil => intro r; rfl
  | cons c cs ih =>
    intro r
    show (cs.foldl applyCand (applyCand r c)).confidence = cs.foldl confStep (confStep r.confidence c)
    rw [ih (applyCand r c), applyCand_confidence]
    rfl

theorem applyCand_invalid (r : FieldResult) (c : Cand) (h : jsTrim c.value = "") :
    applyCand r c = r := by
  unfold applyCand
  have : (jsTrim c.value).length = 0 := (str_length_zero_iff _).mpr h
  simp [this]

theorem foldl_applyCand_noop (cs : List Cand) :
    ∀ r : FieldResult, (∀ c ∈ cs, jsTrim c.value = "" ∨ c.confidence ≤ r.confidence) →
      cs.foldl applyCand r = r := by
  induction cs with
  | nil => intro r _; rfl
  | cons c cs ih =>
    intro r h
    have hstep : applyCand r c = r := by
      rcases h c (List.mem_cons_self c cs) with hv | hle
      · exact applyCand_invalid r c hv
      · exact applyCand_of_le r c hle
    show cs.foldl applyCand (applyCand r c) = r
    rw [hstep]
    exact ih r fun d hd => h d (List.mem_cons_of_mem c hd)

theorem mem_le_maxValidConf (cs : List Cand) :
    ∀ c ∈ cs, jsTrim c.value ≠ "" → c.confidence ≤ maxValidConf cs := by
  induction cs with
  | nil => intro c hc; cases hc
  | cons d cs ih =>
    intro c hc hv
    rcases List.mem_cons.mp hc with h | h
    · subst h
      have h2 : maxValidConf (c :: cs) = cs.foldl confStep (confStep 0 c) := rfl
      rw [h2, foldl_confStep_eq_max, confStep_eq_max, if_pos hv]
      exact le_trans (Nat.le_max_right 0 c.confidence) (Nat.le_max_left _ _)
    · have h1 := ih c h hv
      have h2 : maxValidConf (d :: cs) = cs.foldl confStep (confStep 0 d) := rfl
      rw [h2, foldl_confStep_eq_max]
      exact le_trans h1 (Nat.le_max_right _ _)

theorem maxValidConf_eq_filter_max (cs : List Cand) : maxValidConf cs =
    ((cs.filter fun c => jsTrim c.value ≠ "").map Cand.confidence).foldl max 0 := by
  have main : ∀ (l : List Cand) (b : Nat),
      l.foldl confStep b = ((l.filter fun c => jsTrim c.value ≠ "").map Cand.confidence).foldl max b := by
    intro l
    induction l with
    | nil => intro b; rfl
    | cons c l ih =>
      intro b
      by_cases hv : jsTrim c.value = ""
      · show l.foldl confStep (confStep b c) = _
        rw [confStep_eq_max]
        simp [hv, ih]
      · show l.foldl confStep (confStep b c) = _
        rw [confStep_eq_max]
        simp [hv, ih]
  exact main cs 0

/-- The winner: folding the candidates from a slot strictly below the overall
maximum lands exactly on the first non-empty-match candidate that carries the
maximum confidence. -/
theorem foldl_applyCand_winner (cs : List Cand) :
    ∀ (r : FieldResult) (w : Cand),
      r.confidence < maxValidConf cs →
      cs.find? (fun c => jsTrim c.value != "" && c.confidence == maxValidConf cs) = some w →
      cs.foldl applyCand r = ⟨collapseWs (jsTrim w.value), w.confidence, w.source⟩ := by
  induction cs with
  | nil =>
    intro r w hlt
    simp [maxValidConf] at hlt
  | cons c cs ih =>
    intro r w hlt hfind
    have hM : maxValidConf (c :: cs) = max (confStep 0 c) (maxValidConf cs) := by
      show cs.foldl confStep (confStep 0 c) = _
      exact foldl_confStep_eq_max cs (confStep 0 c)
    by_cases hv : jsTrim c.value = ""
    · -- invalid head: skipped by the fold and by the find
      have hstep : confStep 0 c = 0 := by simp [confStep, hv]
      have hMcs : maxValidConf (c :: cs) = maxValidConf cs := by
        rw [hM, hstep]
        exact Nat.zero_max _
      have happly : applyCand r c = r := applyCand_invalid r c hv
      have hpc : (jsTrim c.value != "" && c.confidence == maxValidConf (c :: cs)) = false := by
        simp [hv]
      have hfind2 : cs.find? (fun d => jsTrim d.value != "" && d.confidence == maxValidConf cs) = some w := by
        rw [List.find?_cons] at hfind
        rw [hpc] at hfind
        rw [← hMcs]
        exact hfind
      show cs.foldl applyCand (applyCand r c) = _
      rw [happly]
      exact ih r w (by rw [hMcs] at hlt; exact hlt) hfind2
    · by_cases hc : c.confidence = maxValidConf (c :: cs)
      · -- the head is the winner
        have hpc : (jsTrim c.value != "" && c.confidence == maxValidConf (c :: cs)) = true := by
          simp [hv, hc]
        rw [List.find?_cons] at hfind
        rw [hpc] at hfind
        have hcw : c = w := Option.some.inj hfind
        subst hcw
        have hfire : applyCand r c = ⟨collapseWs (jsTrim c.value), c.confidence, c.source⟩ := by
          unfold applyCand
          have h1 : ¬ (jsTrim c.value).length = 0 :=
            fun h => hv ((str_length_zero_iff _).mp h)
          have h2 : c.confidence > r.confidence := by omega
          simp [h1, h2]
        show cs.foldl applyCand (applyCand r c) = _
        rw [hfire]
        refine foldl_applyCand_noop cs _ fun d hd => ?_
        by_cases hdv : jsTrim d.value = ""
        · exact Or.inl hdv
        · refine Or.inr ?_
          have h3 := mem_le_maxValidConf (c :: cs) d (List.mem_cons_of_mem c hd) hdv
          show d.confidence ≤ c.confidence
          omega
      · -- valid head below the maximum: it cannot be the winner
        have hle : c.confidence ≤ maxValidConf (c :: cs) :=
          mem_le_maxValidConf (c :: cs) c (List.mem_cons_self c cs) hv
        have hclt : c.confidence < maxValidConf (c :: cs) := by omega
        have hstep0 : confStep 0 c ≤ c.confidence := by
          rw [confStep_eq_max]
          split
          all_goals simp
        have hMcs : maxValidConf cs = maxValidConf (c :: cs) := by
          rcases Nat.le_total (confStep 0 c) (maxValidConf cs) with h | h

          · rw [hM, Nat.max_eq_right h]
          · exfalso
            rw [hM, Nat.max_eq_left h] at hclt
            omega
        have hpc : (jsTrim c.value != "" && c.confidence == maxValidConf (c :: cs)) = false := by
          simp [hv]
          omega
        have hfind2 : cs.find? (fun d => jsTrim d.value != "" && d.confidence == maxValidConf cs) = some w := by
          rw [List.find?_cons] at hfind
          rw [hpc] at hfind
          rw [hMcs]
          exact hfind
        have hlt2 : (applyCand r c).confidence < maxValidConf cs := by
          rw [applyCand_confidence, hMcs]
          split
          · exact hclt
          · omega
        show cs.foldl applyCand (applyCand r c) = _
        rw [ih (applyCand r c) w hlt2 hfind2]

/-! ### Per-layer fold characterization -/

theorem ite_update_get (b : Prop) [Decidable b] (r : Results) (f : Field) (v : String)
    (c : Nat) (s : String) :
    (if b then updateField r f v c s else r).get f =
      List.foldl applyCand (r.get f) (if b then [⟨v, c, s⟩] else []) := by
  split
  · exact updateField_get r f v c s
  · rfl

theorem ite_update_get_ne (b : Prop) [Decidable b] (r : Results) (f g : Field) (v : String)
    (c : Nat) (s : String) (h : g ≠ f) :
    (if b then updateField r f v c s else r).get g = r.get g := by
  split
  · exact updateField_get_ne r f g v c s h
  · rfl

theorem jsonLdApply_get (doc : Doc) (r : Results) (f : Field) :
    (jsonLdApply doc r).get f = List.foldl applyCand (r.get f) (jsonLdCands doc f) := by
  unfold jsonLdApply jsonLdCands
  cases hs : findJobPostingSchema doc with
  | none => rfl
  | some item =>
    dsimp only
    cases f with
    | company =>
      rw [ite_update_get_ne _ _ .description .company _ _ _ (by decide)]
      cases hjl : item.jobLocation with
      | none =>
        rw [ite_update_get_ne _ _ .jobTitle .company _ _ _ (by decide)]
        exact ite_update_get _ _ .company _ _ _
      | some jl =>
        dsimp only
        split
        · cases hp : parseJobLocation jl with
          | none =>
            rw [ite_update_get_ne _ _ .jobTitle .company _ _ _ (by decide)]
            exact ite_update_get _ _ .company _ _ _
          | some location =>
            dsimp only
            rw [ite_update_get_ne _ _ .location .company _ _ _ (by decide),
              ite_update_get_ne _ _ .jobTitle .company _ _ _ (by decide)]
            exact ite_update_get _ _ .company _ _ _
        · rw [ite_update_get_ne _ _ .jobTitle .company _ _ _ (by decide)]
          exact ite_update_get _ _ .company _ _ _
    | jobTitle =>
      rw [ite_update_get_ne _ _ .description .jobTitle _ _ _ (by decide)]
      cases hjl : item.jobLocation with
      | none =>
        rw [ite_update_get _ _ .jobTitle _ _ _]
        rw [ite_update_get_ne _ _ .company .jobTitle _ _ _ (by decide)]
      | some jl =>
        dsimp only
        split
        · cases hp : parseJobLocation jl with
          | none =>
            rw [ite_update_get _ _ .jobTitle _ _ _]
            rw [ite_update_get_ne _ _ .company .jobTitle _ _ _ (by decide)]
          | some location =>
            dsimp only
            rw [ite_update_get_ne _ _ .location .jobTitle _ _ _ (by decide)]
            rw [ite_update_get _ _ .jobTitle _ _ _]
            rw [ite_update_get_ne _ _ .company .jobTitle _ _ _ (by decide)]
        · rw [ite_update_get _ _ .jobTitle _ _ _]
          rw [ite_update_get_ne _ _ .company .jobTitle _ _ _ (by decide)]
    | location =>
      rw [ite_update_get_ne _ _ .description .location _ _ _ (by decide)]
      cases hjl : item.jobLocation with
      | none =>
        rw [ite_update_get_ne _ _ .jobTitle .location _ _ _ (by decide)]
        rw [ite_update_get_ne _ _ .company .location _ _ _ (by decide)]
        simp
      | some jl =>
        dsimp only
        split
        · cases hp : parseJobLocation jl with
          | none =>
            rw [ite_update_get_ne _ _ .jobTitle .location _ _ _ (by decide)]
            rw [ite_update_get_ne _ _ .company .location _ _ _ (by decide)]
            simp [hp]
          | some location =>
            dsimp only
            rw [ite_update_get _ _ .location _ _ _]
            rw [ite_update_get_ne _ _ .jobTitle .location _ _ _ (by decide)]
            rw [ite_update_get_ne _ _ .company .location _ _ _ (by decide)]
        · next hjt =>
            rw [ite_update_get_ne _ _ .jobTitle .location _ _ _ (by decide)]
            rw [ite_update_get_ne _ _ .company .location _ _ _ (by decide)]
            simp [hjt]
    | description =>
      rw [ite_update_get _ _ .description _ _ _]
      cases hjl : item.jobLocation with
      | none =>
        rw [ite_update_get_ne _ _ .jobTitle .description _ _ _ (by decide)]
        rw [ite_update_get_ne _ _ .company .description _ _ _ (by decide)]
      | some jl =>
        dsimp only
        split
        · cases hp : parseJobLocation jl with
          | none =>
            rw [ite_update_get_ne _ _ .jobTitle .description _ _ _ (by decide)]
            rw [ite_update_get_ne _ _ .company .description _ _ _ (by decide)]
          | some location =>
            dsimp only
            rw [ite_update_get_ne _ _ .location .description _ _ _ (by decide)]
            rw [ite_update_get_ne _ _ .jobTitle .description _ _ _ (by decide)]
            rw [ite_update_get_ne _ _ .company .description _ _ _ (by decide)]
        · rw [ite_update_get_ne _ _ .jobTitle .description _ _ _ (by decide)]
          rw [ite_update_get_ne _ _ .company .description _ _ _ (by decide)]

/-- A ceiling-guarded update (`if P && conf < c then updateField ... `) seen
from its own field is the fold of the unguarded candidate: when the guard's
confidence part fails, the candidate is a no-op anyway. -/
theorem guarded_update_get (P : Prop) [Decidable P] (r : Results) (f : Field) (v : String)
    (c : Nat) (s : String) :
    (if P ∧ (r.get f).confidence < c then updateField r f v c s else r).get f =
      List.foldl applyCand (r.get f) (if P then [⟨v, c, s⟩] else []) := by
  by_cases hP : P
  · by_cases hc : (r.get f).confidence < c
    · rw [if_pos ⟨hP, hc⟩, if_pos hP, updateField_get]
      rfl
    · rw [if_neg (fun hh => hc hh.2), if_pos hP]
      show r.get f = applyCand (r.get f) ⟨v, c, s⟩
      exact (applyCand_of_le _ _ (Nat.le_of_not_lt hc)).symm
  · rw [if_neg (fun hh => hP hh.1), if_neg hP]
    rfl

theorem ogApply_get (doc : Doc) (r : Results) (f : Field) :
    (ogApply doc r).get f = List.foldl applyCand (r.get f) (ogCands doc f) := by
  unfold ogApply ogCands
  dsimp only
  cases f with
  | company =>
    rw [ite_update_get_ne _ _ .description .company _ _ _ (by decide)]
    rw [guarded_update_get]
    rw [ite_update_get_ne _ _ .jobTitle .company _ _ _ (by decide)]
  | jobTitle =>
    rw [ite_update_get_ne _ _ .description .jobTitle _ _ _ (by decide)]
    rw [ite_update_get_ne _ _ .company .jobTitle _ _ _ (by decide)]
    rw [guarded_update_get]
  | location =>
    rw [ite_update_get_ne _ _ .description .location _ _ _ (by decide)]
    rw [ite_update_get_ne _ _ .company .location _ _ _ (by decide)]
    rw [ite_update_get_ne _ _ .jobTitle .location _ _ _ (by decide)]
    rfl
  | description =>
    rw [guarded_update_get]
    rw [ite_update_get_ne _ _ .company .description _ _ _ (by decide)]
    rw [ite_update_get_ne _ _ .jobTitle .description _ _ _ (by decide)]

theorem mem_selCandList_conf (doc : Doc) (conf : Nat) (src : String) (sels : List String)
    (c : Cand) (hc : c ∈ selCandList doc conf src sels) : c.confidence = conf := by
  rcases List.mem_filterMap.mp hc with ⟨sel, _, hsel⟩
  rcases hq : doc.query sel with _ | _ | t <;> rw [hq] at hsel
  · cases hsel
  · cases hsel
  · dsimp only at hsel
    split at hsel
    · cases hsel
      rfl
    · cases hsel

theorem trySelectorsGo_get_ne (doc : Doc) (f : Field) (conf : Nat) (src : String) :
    ∀ (sels : List String) (r : Results) (g : Field), g ≠ f →
      (trySelectorsGo doc f conf src sels r).get g = r.get g := by
  intro sels
  induction sels with
  | nil => intro r g _; rfl
  | cons sel rest ih =>
    intro r g hg
    show (trySelectorsGo doc f conf src (sel :: rest) r).get g = r.get g
    unfold trySelectorsGo
    rcases hq : doc.query sel with _ | _ | t
    · exact ih r g hg
    · exact ih r g hg
    · dsimp only
      split
      · split
        · exact updateField_get_ne r f g _ _ _ hg
        · rw [ih _ g hg]
          exact updateField_get_ne r f g _ _ _ hg
      · exact ih r g hg

theorem trySelectorsGo_fold (doc : Doc) (f : Field) (conf : Nat) (src : String) :
    ∀ (sels : List String) (r : Results), (r.get f).confidence < conf →
      (trySelectorsGo doc f conf src sels r).get f =
        List.foldl applyCand (r.get f) (selCandList doc conf src sels) := by
  intro sels
  induction sels with
  | nil => intro r _; rfl
  | cons sel rest ih =>
    intro r hr
    unfold trySelectorsGo
    rcases hq : doc.query sel with _ | _ | t
    · rw [ih r hr]
      simp [selCandList, List.filterMap_cons, hq]
    · rw [ih r hr]
      simp [selCandList, List.filterMap_cons, hq]
    · dsimp only
      by_cases ht : jsTrim t ≠ ""
      · rw [if_pos ht]
        have hsc : selCandList doc conf src (sel :: rest) =
            ⟨jsTrim t, conf, src⟩ :: selCandList doc conf src rest := by
          simp [selCandList, List.filterMap_cons, hq, ht]
        rw [hsc]
        have hupd : (updateField r f (jsTrim t) conf src).get f =
            applyCand (r.get f) ⟨jsTrim t, conf, src⟩ := updateField_get r f _ conf src
        by_cases hvv : jsTrim (jsTrim t) = ""
        · -- the candidate is rejected by the update primitive on both sides
          have hnoop : applyCand (r.get f) ⟨jsTrim t, conf, src⟩ = r.get f :=
            applyCand_invalid _ _ hvv
          have hsame : updateField r f (jsTrim t) conf src = r := by
            unfold updateField
            rw [if_pos ((str_length_zero_iff _).mpr hvv)]
          rw [hsame]
          rw [if_neg (by omega)]
          rw [ih r hr]
          show _ = List.foldl applyCand (applyCand (r.get f) _) _
          rw [hnoop]
        · have hfire : applyCand (r.get f) ⟨jsTrim t, conf, src⟩ =
              ⟨collapseWs (jsTrim (jsTrim t)), conf, src⟩ := by
            unfold applyCand
            rw [if_neg (fun h => hvv ((str_length_zero_iff _).mp h))]
            rw [if_pos hr]
          have hconf : ((updateField r f (jsTrim t) conf src).get f).confidence ≥ conf := by
            rw [hupd, hfire]
          rw [if_pos hconf]
          rw [hupd, hfire]
          show _ = List.foldl applyCand (applyCand (r.get f) _) _
          rw [hfire]
          refine (foldl_applyCand_noop _ _ fun d hd => Or.inr ?_).symm
          rw [mem_selCandList_conf doc conf src rest d hd]
      · rw [if_neg ht]
        rw [ih r hr]
        simp [selCandList, List.filterMap_cons, hq, ht]

theorem trySelectors_get (doc : Doc) (r : Results) (f : Field) (sels : String)
    (conf : Nat) (src : String) :
    (trySelectors doc r f sels conf src).get f =
      List.foldl applyCand (r.get f) (selCandList doc conf src (splitSelectors sels)) := by
  unfold trySelectors
  split
  · next h =>
    refine (foldl_applyCand_noop _ _ fun d hd => Or.inr ?_).symm
    rw [mem_selCandList_conf doc conf src _ d hd]
    omega
  · next h => exact trySelectorsGo_fold doc f conf src _ r (by omega)

theorem trySelectors_get_ne (doc : Doc) (r : Results) (f g : Field) (sels : String)
    (conf : Nat) (src : String) (hg : g ≠ f) :
    (trySelectors doc r f sels conf src).get g = r.get g := by
  unfold trySelectors
  split
  · rfl
  · exact trySelectorsGo_get_ne doc f conf src _ r g hg

theorem tryAriaLabelsGo_get :
    ∀ (els : List (String × String)) (r : Results) (f : Field),
      (tryAriaLabelsGo els r).get f = List.foldl applyCand (r.get f) (ariaCands els f) := by
  intro els
  induction els with
  | nil => intro r f; rfl
  | cons el rest ih =>
    intro r f
    rcases el with ⟨label0, text0⟩
    show (tryAriaLabelsGo ((label0, text0) :: rest) r).get f = _
    unfold tryAriaLabelsGo
    dsimp only
    by_cases htext : jsTrim text0 = ""
    · rw [if_pos htext, ih]
      have : ariaCands ((label0, text0) :: rest) f = ariaCands rest f := by
        simp [ariaCands, List.filterMap_cons, htext]
      rw [this]
    · rw [if_neg htext]
      have hcons : ∀ g, ariaCands ((label0, text0) :: rest) g =
          (if ariaLabelHits label0 g then [⟨jsTrim text0, 70, "ARIA Label"⟩] else []) ++
            ariaCands rest g := by
        intro g
        by_cases hh : ariaLabelHits label0 g = true
        · simp [ariaCands, List.filterMap_cons, htext, hh]
        · simp [ariaCands, List.filterMap_cons, htext, hh]
      cases f with
      | company =>
        rw [ih _ .company]
        rw [ite_update_get_ne _ _ .location .company _ _ _ (by decide)]
        rw [ite_update_get_ne _ _ .jobTitle .company _ _ _ (by decide)]
        rw [guarded_update_get]
        rw [hcons .company, List.foldl_append]
        have : ariaLabelHits label0 .company =
            (strContains (lowerStr label0) "company" || strContains (lowerStr label0) "employer") := rfl
        rw [this]
        by_cases hP : (strContains (lowerStr label0) "company" ∨
            strContains (lowerStr label0) "employer")
        · rw [if_pos hP, if_pos (by simpa using hP)]
        · rw [if_neg hP, if_neg (by simpa using hP)]
      | jobTitle =>
        rw [ih _ .jobTitle]
        rw [ite_update_get_ne _ _ .location .jobTitle _ _ _ (by decide)]
        rw [guarded_update_get]
        rw [ite_update_get_ne _ _ .company .jobTitle _ _ _ (by decide)]
        rw [hcons .jobTitle, List.foldl_append]
        have : ariaLabelHits label0 .jobTitle =
            (strContains (lowerStr label0) "job" || strContains (lowerStr label0) "title" ||
              strContains (lowerStr label0) "position") := rfl
        rw [this]
        by_cases hP : (strContains (lowerStr label0) "job" ∨
            strContains (lowerStr label0) "title" ∨ strContains (lowerStr label0) "position")
        · rw [if_pos hP, if_pos (by simpa [Bool.or_assoc] using hP)]
        · rw [if_neg hP, if_neg (by simpa [Bool.or_assoc] using hP)]
      | location =>
        rw [ih _ .location]
        rw [guarded_update_get]
        rw [ite_update_get_ne _ _ .jobTitle .location _ _ _ (by decide)]
        rw [ite_update_get_ne _ _ .company .location _ _ _ (by decide)]
        rw [hcons .location, List.foldl_append]
        have : ariaLabelHits label0 .location = strContains (lowerStr label0) "location" := rfl
        rw [this]
      | description =>
        rw [ih _ .description]
        rw [ite_update_get_ne _ _ .location .description _ _ _ (by decide)]
        rw [ite_update_get_ne _ _ .jobTitle .description _ _ _ (by decide)]
        rw [ite_update_get_ne _ _ .company .description _ _ _ (by decide)]
        rw [hcons .description]
        simp [ariaLabelHits]

theorem tryAriaLabels_get (doc : Doc) (r : Results) (f : Field) :
    (tryAriaLabels doc r).get f =
      List.foldl applyCand (r.get f) (ariaCands doc.ariaElements f) :=
  tryAriaLabelsGo_get doc.ariaElements r f

theorem ite_trySelectors_get_ne (b : Prop) [Decidable b] (doc : Doc) (r : Results)
    (f g : Field) (sels : String) (conf : Nat) (src : String) (hg : g ≠ f) :
    (if b then trySelectors doc r f sels conf src else r).get g = r.get g := by
  split
  · exact trySelectors_get_ne doc r f g sels conf src hg
  · rfl

theorem ite_trySelectors_get (b : Prop) [Decidable b] (doc : Doc) (r : Results)
    (f : Field) (sels : String) (conf : Nat) (src : String) :
    (if b then trySelectors doc r f sels conf src else r).get f =
      List.foldl applyCand (r.get f)
        (if b then selCandList doc conf src (splitSelectors sels) else []) := by
  split
  · exact trySelectors_get doc r f sels conf src
  · rfl

theorem detectFromSemanticHTML_get (doc : Doc) (r : Results) (f : Field) :
    (detectFromSemanticHTML doc r).get f =
      List.foldl applyCand (r.get f)
        (siteCands doc f ++ genericCands doc f ++ ariaCands doc.ariaElements f) := by
  unfold detectFromSemanticHTML siteCands genericCands
  cases hsp : sitePatternFor doc with
  | none =>
    dsimp only
    cases f with
    | company =>
      rw [tryAriaLabels_get]
      rw [trySelectors_get_ne _ _ .description .company _ _ _ (by decide)]
      rw [trySelectors_get_ne _ _ .location .company _ _ _ (by decide)]
      rw [trySelectors_get_ne _ _ .jobTitle .company _ _ _ (by decide)]
      rw [trySelectors_get]
      rw [List.nil_append, List.foldl_append]
    | jobTitle =>
      rw [tryAriaLabels_get]
      rw [trySelectors_get_ne _ _ .description .jobTitle _ _ _ (by decide)]
      rw [trySelectors_get_ne _ _ .location .jobTitle _ _ _ (by decide)]
      rw [trySelectors_get]
      rw [trySelectors_get_ne _ _ .company .jobTitle _ _ _ (by decide)]
      rw [List.nil_append, List.foldl_append]
    | location =>
      rw [tryAriaLabels_get]
      rw [trySelectors_get_ne _ _ .description .location _ _ _ (by decide)]
      rw [trySelectors_get]
      rw [trySelectors_get_ne _ _ .jobTitle .location _ _ _ (by decide)]
      rw [trySelectors_get_ne _ _ .company .location _ _ _ (by decide)]
      rw [List.nil_append, List.foldl_append]
    | description =>
      rw [tryAriaLabels_get]
      rw [trySelectors_get]
      rw [trySelectors_get_ne _ _ .location .description _ _ _ (by decide)]
      rw [trySelectors_get_ne _ _ .jobTitle .description _ _ _ (by decide)]
      rw [trySelectors_get_ne _ _ .company .description _ _ _ (by decide)]
      rw [List.nil_append, List.foldl_append]
  | some sp =>
    dsimp only
    cases f with
    | company =>
      rw [tryAriaLabels_get]
      rw [trySelectors_get_ne _ _ .description .company _ _ _ (by decide)]
      rw [trySelectors_get_ne _ _ .location .company _ _ _ (by decide)]
      rw [trySelectors_get_ne _ _ .jobTitle .company _ _ _ (by decide)]
      rw [trySelectors_get]
      rw [ite_trySelectors_get_ne _ _ _ .description .company _ _ _ (by decide)]
      rw [trySelectors_get_ne _ _ .location .company _ _ _ (by decide)]
      rw [trySelectors_get_ne _ _ .jobTitle .company _ _ _ (by decide)]
      rw [trySelectors_get]
      rw [List.foldl_append, List.foldl_append]
    | jobTitle =>
      rw [tryAriaLabels_get]
      rw [trySelectors_get_ne _ _ .description .jobTitle _ _ _ (by decide)]
      rw [trySelectors_get_ne _ _ .location .jobTitle _ _ _ (by decide)]
      rw [trySelectors_get]
      rw [trySelectors_get_ne _ _ .company .jobTitle _ _ _ (by decide)]
      rw [ite_trySelectors_get_ne _ _ _ .description .jobTitle _ _ _ (by decide)]
      rw [trySelectors_get_ne _ _ .location .jobTitle _ _ _ (by decide)]
      rw [trySelectors_get]
      rw [trySelectors_get_ne _ _ .company .jobTitle _ _ _ (by decide)]
      rw [List.foldl_append, List.foldl_append]
    | location =>
      rw [tryAriaLabels_get]
      rw [trySelectors_get_ne _ _ .description .location _ _ _ (by decide)]
      rw [trySelectors_get]
      rw [trySelectors_get_ne _ _ .jobTitle .location _ _ _ (by decide)]
      rw [trySelectors_get_ne _ _ .company .location _ _ _ (by decide)]
      rw [ite_trySelectors_get_ne _ _ _ .description .location _ _ _ (by decide)]
      rw [trySelectors_get]
      rw [trySelectors_get_ne _ _ .jobTitle .location _ _ _ (by decide)]
      rw [trySelectors_get_ne _ _ .company .location _ _ _ (by decide)]
      rw [List.foldl_append, List.foldl_append]
    | description =>
      rw [tryAriaLabels_get]
      rw [trySelectors_get]
      rw [trySelectors_get_ne _ _ .location .description _ _ _ (by decide)]
      rw [trySelectors_get_ne _ _ .jobTitle .description _ _ _ (by decide)]
      rw [trySelectors_get_ne _ _ .company .description _ _ _ (by decide)]
      rw [ite_trySelectors_get]
      rw [trySelectors_get_ne _ _ .location .description _ _ _ (by decide)]
      rw [trySelectors_get_ne _ _ .jobTitle .description _ _ _ (by decide)]
      rw [trySelectors_get_ne _ _ .company .description _ _ _ (by decide)]
      rw [List.foldl_append, List.foldl_append]

/-- A ceiling-guarded update whose candidate confidence is at most the guard's
ceiling: when the guard blocks, the candidate would have been a no-op anyway. -/
theorem weak_ceiling_update_get (r : Results) (f : Field) (v : String) (s : String)
    (cGuard cUpd : Nat) (h : cUpd ≤ cGuard) :
    (if (r.get f).confidence < cGuard then updateField r f v cUpd s else r).get f =
      applyCand (r.get f) ⟨v, cUpd, s⟩ := by
  split
  · exact updateField_get r f v cUpd s
  · next hc =>
    exact (applyCand_of_le _ _ (show cUpd ≤ (r.get f).confidence by omega)).symm

theorem textCompanyStep_get (doc : Doc) (r : Results) :
    (textCompanyStep doc r).get .company =
      List.foldl applyCand (r.get .company) (textCands doc .company) := by
  unfold textCompanyStep textCands
  cases hfc : findCompanyName doc.bodyText doc.headings with
  | none =>
    split <;> rfl
  | some v =>
    dsimp only
    by_cases hv : v ≠ ""
    · rw [if_pos hv, if_pos hv]
      exact weak_ceiling_update_get r .company v _ 60 60 (Nat.le_refl _)
    · rw [if_neg hv, if_neg hv]
      split <;> rfl

theorem textCompanyStep_get_ne (doc : Doc) (r : Results) (g : Field) (hg : g ≠ .company) :
    (textCompanyStep doc r).get g = r.get g := by
  unfold textCompanyStep
  split
  · cases findCompanyName doc.bodyText doc.headings with
    | none => rfl
    | some v =>
      dsimp only
      split
      · exact updateField_get_ne r .company g _ _ _ hg
      · rfl
  · rfl

theorem textJobTitleStep_get (doc : Doc) (r : Results) :
    (textJobTitleStep doc r).get .jobTitle =
      List.foldl applyCand (r.get .jobTitle) (textCands doc .jobTitle) := by
  unfold textJobTitleStep textCands
  cases hfc : findJobTitle doc doc.headings doc.bodyText with
  | none =>
    split <;> rfl
  | some v =>
    dsimp only
    by_cases hv : v ≠ ""
    · rw [if_pos hv, if_pos hv]
      exact weak_ceiling_update_get r .jobTitle v _ 60 60 (Nat.le_refl _)
    · rw [if_neg hv, if_neg hv]
      split <;> rfl

theorem textJobTitleStep_get_ne (doc : Doc) (r : Results) (g : Field) (hg : g ≠ .jobTitle) :
    (textJobTitleStep doc r).get g = r.get g := by
  unfold textJobTitleStep
  split
  · cases findJobTitle doc doc.headings doc.bodyText with
    | none => rfl
    | some v =>
      dsimp only
      split
      · exact updateField_get_ne r .jobTitle g _ _ _ hg
      · rfl
  · rfl

theorem textLocationStep_get (doc : Doc) (r : Results) :
    (textLocationStep doc r).get .location =
      List.foldl applyCand (r.get .location) (textCands doc .location) := by
  unfold textLocationStep textCands
  cases hfc : findLocation doc.bodyText with
  | none =>
    split <;> rfl
  | some v =>
    dsimp only
    by_cases hv : v ≠ ""
    · rw [if_pos hv, if_pos hv]
      exact weak_ceiling_update_get r .location v _ 60 60 (Nat.le_refl _)
    · rw [if_neg hv, if_neg hv]
      split <;> rfl

theorem textLocationStep_get_ne (doc : Doc) (r : Results) (g : Field) (hg : g ≠ .location) :
    (textLocationStep doc r).get g = r.get g := by
  unfold textLocationStep
  split
  · cases findLocation doc.bodyText with
    | none => rfl
    | some v =>
      dsimp only
      split
      · exact updateField_get_ne r .location g _ _ _ hg
      · rfl
  · rfl

theorem detectFromTextAnalysis_get (doc : Doc) (r : Results) (f : Field) :
    (detectFromTextAnalysis doc r).get f =
      List.foldl applyCand (r.get f) (textCands doc f) := by
  unfold detectFromTextAnalysis
  cases f with
  | company =>
    rw [textLocationStep_get_ne _ _ _ (by decide), textJobTitleStep_get_ne _ _ _ (by decide)]
    exact textCompanyStep_get doc r
  | jobTitle =>
    rw [textLocationStep_get_ne _ _ _ (by decide), textJobTitleStep_get]
    rw [textCompanyStep_get_ne _ _ _ (by decide)]
  | location =>
    rw [textLocationStep_get]
    rw [textJobTitleStep_get_ne _ _ _ (by decide), textCompanyStep_get_ne _ _ _ (by decide)]
  | description =>
    rw [textLocationStep_get_ne _ _ _ (by decide), textJobTitleStep_get_ne _ _ _ (by decide),
      textCompanyStep_get_ne _ _ _ (by decide)]
    rfl

theorem fallbackPageTitle_get (doc : Doc) (r : Results) :
    (fallbackPageTitle doc r).get .jobTitle =
      List.foldl applyCand (r.get .jobTitle)
        (match titleBeforeSep doc.title with
         | some m => if jsTrim m ≠ "" then [⟨jsTrim m, 40, "Page Title"⟩] else []
         | none => []) := by
  unfold fallbackPageTitle
  cases hm : titleBeforeSep doc.title with
  | none => split <;> rfl
  | some m =>
    dsimp only
    by_cases hv : jsTrim m ≠ ""
    · rw [if_pos hv, if_pos hv]
      exact weak_ceiling_update_get r .jobTitle _ _ 40 40 (Nat.le_refl _)
    · rw [if_neg hv, if_neg hv]
      split <;> rfl

theorem fallbackPageTitle_get_ne (doc : Doc) (r : Results) (g : Field) (hg : g ≠ .jobTitle) :
    (fallbackPageTitle doc r).get g = r.get g := by
  unfold fallbackPageTitle
  split
  · cases titleBeforeSep doc.title with
    | none => rfl
    | some m =>
      dsimp only
      split
      · exact updateField_get_ne r .jobTitle g _ _ _ hg
      · rfl
  · rfl

theorem fallbackDomain_get (doc : Doc) (r : Results) :
    (fallbackDomain doc r).get .company =
      applyCand (r.get .company) ⟨domainCompany doc.hostname, 35, "Domain Name"⟩ :=
  weak_ceiling_update_get r .company _ _ 40 35 (by omega)

theorem fallbackDomain_get_ne (doc : Doc) (r : Results) (g : Field) (hg : g ≠ .company) :
    (fallbackDomain doc r).get g = r.get g := by
  unfold fallbackDomain
  split
  · exact updateField_get_ne r .company g _ _ _ hg
  · rfl

theorem fallbackFirstH1_get (doc : Doc) (r : Results) :
    (fallbackFirstH1 doc r).get .jobTitle =
      List.foldl applyCand (r.get .jobTitle)
        (match doc.headings.find? (fun h => h.tag == HTag.h1) with
         | some firstH1 =>
           if jsTrim firstH1.textContent ≠ "" then
             [⟨jsTrim firstH1.textContent, 35, "First H1"⟩]
           else []
         | none => []) := by
  unfold fallbackFirstH1
  cases hm : doc.headings.find? (fun h => h.tag == HTag.h1) with
  | none => split <;> rfl
  | some firstH1 =>
    dsimp only
    by_cases hv : jsTrim firstH1.textContent ≠ ""
    · rw [if_pos hv, if_pos hv]
      exact weak_ceiling_update_get r .jobTitle _ _ 40 35 (by omega)
    · rw [if_neg hv, if_neg hv]
      split <;> rfl

theorem fallbackFirstH1_get_ne (doc : Doc) (r : Results) (g : Field) (hg : g ≠ .jobTitle) :
    (fallbackFirstH1 doc r).get g = r.get g := by
  unfold fallbackFirstH1
  split
  · cases doc.headings.find? (fun h => h.tag == HTag.h1) with
    | none => rfl
    | some firstH1 =>
      dsimp only
      split
      · exact updateField_get_ne r .jobTitle g _ _ _ hg
      · rfl
  · rfl

theorem applyFallbacks_get (doc : Doc) (r : Results) (f : Field) :
    (applyFallbacks doc r).get f =
      List.foldl applyCand (r.get f) (fallbackCands doc f) := by
  unfold applyFallbacks fallbackCands
  cases f with
  | company =>
    rw [fallbackFirstH1_get_ne _ _ _ (by decide)]
    rw [fallbackDomain_get]
    rw [fallbackPageTitle_get_ne _ _ _ (by decide)]
    rfl
  | jobTitle =>
    rw [fallbackFirstH1_get]
    rw [fallbackDomain_get_ne _ _ _ (by decide)]
    rw [fallbackPageTitle_get]
    rw [← List.foldl_append]
  | location =>
    rw [fallbackFirstH1_get_ne _ _ _ (by decide)]
    rw [fallbackDomain_get_ne _ _ _ (by decide)]
    rw [fallbackPageTitle_get_ne _ _ _ (by decide)]
    rfl
  | description =>
    rw [fallbackFirstH1_get_ne _ _ _ (by decide)]
    rw [fallbackDomain_get_ne _ _ _ (by decide)]
    rw [fallbackPageTitle_get_ne _ _ _ (by decide)]
    rfl

/-- The fold characterization of the whole detector: each field's final slot is
the left fold of the one-field update primitive over that field's candidate
list, starting from the empty slot. -/
theorem detectResults_get (doc : Doc) (f : Field) :
    (detectResults doc).get f = List.foldl applyCand initField (fieldCandidates doc f) := by
  unfold detectResults detectFromStructuredData fieldCandidates
  rw [applyFallbacks_get, detectFromTextAnalysis_get, detectFromSemanticHTML_get,
    ogApply_get, jsonLdApply_get]
  have hinit : initialResults.get f = initField := by cases f <;> rfl
  rw [hinit]
  simp only [List.foldl_append]

theorem second_scan_eq_h23 (hs : List Heading)
    (hh1 : ∀ h ∈ hs, h.tag = HTag.h1 →
      containsJobKeyword (jsTrim h.textContent) jobKeywords = false) :
    (hs.findSome? fun heading =>
      let text := jsTrim heading.textContent
      if text.length > 5 ∧ text.length < 100 ∧ containsJobKeyword text jobKeywords then
        if heading.fontSize > 18 then some text else none
      else none) =
    ((hs.filter fun h => h.tag == HTag.h2 || h.tag == HTag.h3).findSome? fun heading =>
      let text := jsTrim heading.textContent
      if text.length > 5 ∧ text.length < 100 ∧ containsJobKeyword text jobKeywords then
        if heading.fontSize > 18 then some text else none
      else none) := by
  induction hs with
  | nil => rfl
  | cons h hs ih =>
    have ihh : ∀ h' ∈ hs, h'.tag = HTag.h1 →
        containsJobKeyword (jsTrim h'.textContent) jobKeywords = false :=
      fun h' hm => hh1 h' (List.mem_cons_of_mem h hm)
    rw [List.findSome?_cons]
    cases htag : h.tag with
    | h1 =>
      have hkw := hh1 h (List.mem_cons_self h hs) htag
      have hcond : ¬((jsTrim h.textContent).length > 5 ∧ (jsTrim h.textContent).length < 100 ∧
          containsJobKeyword (jsTrim h.textContent) jobKeywords) := by
        intro hcontra
        rw [hkw] at hcontra
        exact Bool.false_ne_true hcontra.2.2
      rw [List.filter_cons_of_neg (by simp [htag])]
      dsimp only
      rw [if_neg hcond]
      exact ih ihh
    | h2 =>
      rw [List.filter_cons_of_pos (by simp [htag])]
      rw [List.findSome?_cons]
      cases hstep : (let text := jsTrim h.textContent
        if text.length > 5 ∧ text.length < 100 ∧ containsJobKeyword text jobKeywords then
          if h.fontSize > 18 then some text else none
        else none) with
      | none => exact ih ihh
      | some t => rfl
    | h3 =>
      rw [List.filter_cons_of_pos (by simp [htag])]
      rw [List.findSome?_cons]
      cases hstep : (let text := jsTrim h.textContent
        if text.length > 5 ∧ text.length < 100 ∧ containsJobKeyword text jobKeywords then
          if h.fontSize > 18 then some text else none
        else none) with
      | none => exact ih ihh
      | some t => rfl

/-- Claim C7 (amended): the layer-3 job-title search scans all h1 elements
first, returning the first whose trimmed text contains a keyword of the fixed
list as a case-insensitive substring; only when no h1 matches does it scan the
h2/h3 headings, returning the first whose trimmed text has length strictly
between 5 and 100, contains a keyword, and whose rendered font size exceeds
18px. (The length bound is the amendment: the claim as stated omits it.) -/
theorem findJobTitle_matches_amended_claim (doc : Doc) (t : String) :
    findJobTitle doc doc.headings t = findJobTitleClaimAmended doc := by
  unfold findJobTitle findJobTitleClaimAmended
  dsimp only
  cases h1scan : (doc.headings.filter fun h => h.tag == HTag.h1).findSome? (fun h1 =>
      let text := jsTrim h1.textContent
      if containsJobKeyword text jobKeywords then some text else none) with
  | some tt => rfl
  | none =>
    dsimp only
    refine second_scan_eq_h23 doc.headings fun h hm htag => ?_
    have hmem : h ∈ doc.headings.filter fun h => h.tag == HTag.h1 :=
      List.mem_filter.mpr ⟨hm, by simp [htag]⟩
    have := List.findSome?_eq_none_iff.mp h1scan h hmem
    dsimp only at this
    by_cases hkw : containsJobKeyword (jsTrim h.textContent) jobKeywords = true
    · rw [if_pos hkw] at this
      cases this
    · simpa using hkw

/-! ### Confidence values carried by candidates -/

theorem mem_ite_singleton {P : Prop} [Decidable P] {c x : Cand}
    (h : c ∈ (if P then [x] else [])) : c = x := by
  split at h
  · simpa using h
  · cases h

theorem mem_jsonLdCands_conf (doc : Doc) (f : Field) (c : Cand)
    (hc : c ∈ jsonLdCands doc f) : c.confidence = 95 := by
  unfold jsonLdCands at hc
  rcases hfs : findJobPostingSchema doc with _ | item <;> rw [hfs] at hc
  · cases hc
  · cases f with
    | company =>
      dsimp only at hc
      rw [mem_ite_singleton hc]
    | jobTitle =>
      dsimp only at hc
      rw [mem_ite_singleton hc]
    | location =>
      dsimp only at hc
      rcases hjl : item.jobLocation with _ | jl <;> rw [hjl] at hc
      · cases hc
      · dsimp only at hc
        split at hc
        · rcases hp : parseJobLocation jl with _ | location <;> rw [hp] at hc
          · cases hc
          · rw [mem_ite_singleton hc]
        · cases hc
    | description =>
      dsimp only at hc
      rw [mem_ite_singleton hc]

theorem mem_ogCands_conf (doc : Doc) (f : Field) (c : Cand)
    (hc : c ∈ ogCands doc f) : c.confidence = 85 := by
  unfold ogCands at hc
  cases f with
  | company => rw [mem_ite_singleton hc]
  | jobTitle => rw [mem_ite_singleton hc]
  | location => cases hc
  | description => rw [mem_ite_singleton hc]

theorem mem_siteCands_conf (doc : Doc) (f : Field) (c : Cand)
    (hc : c ∈ siteCands doc f) : c.confidence = 80 := by
  unfold siteCands at hc
  rcases hsp : sitePatternFor doc with _ | sp <;> rw [hsp] at hc
  · cases hc
  · cases f with
    | company =>
      dsimp only at hc
      exact mem_selCandList_conf _ _ _ _ _ hc
    | jobTitle =>
      dsimp only at hc
      exact mem_selCandList_conf _ _ _ _ _ hc
    | location =>
      dsimp only at hc
      exact mem_selCandList_conf _ _ _ _ _ hc
    | description =>
      dsimp only at hc
      split at hc
      · exact mem_selCandList_conf _ _ _ _ _ hc
      · cases hc

theorem mem_genericCands_conf (doc : Doc) (f : Field) (c : Cand)
    (hc : c ∈ genericCands doc f) : c.confidence = 75 ∨ c.confidence = 70 := by
  unfold genericCands at hc
  cases f with
  | company => exact Or.inl (mem_selCandList_conf _ _ _ _ _ hc)
  | jobTitle => exact Or.inl (mem_selCandList_conf _ _ _ _ _ hc)
  | location => exact Or.inl (mem_selCandList_conf _ _ _ _ _ hc)
  | description => exact Or.inr (mem_selCandList_conf _ _ _ _ _ hc)

theorem mem_ariaCands_conf (els : List (String × String)) (f : Field) (c : Cand)
    (hc : c ∈ ariaCands els f) : c.confidence = 70 := by
  rcases List.mem_filterMap.mp hc with ⟨el, _, hel⟩
  split at hel
  · cases hel
    rfl
  · cases hel

theorem mem_textCands_conf (doc : Doc) (f : Field) (c : Cand)
    (hc : c ∈ textCands doc f) : c.confidence = 60 := by
  unfold textCands at hc
  cases f with
  | company =>
    rcases hfc : findCompanyName doc.bodyText doc.headings with _ | v <;> rw [hfc] at hc
    · cases hc
    · rw [mem_ite_singleton hc]
  | jobTitle =>
    rcases hfc : findJobTitle doc doc.headings doc.bodyText with _ | v <;> rw [hfc] at hc
    · cases hc
    · rw [mem_ite_singleton hc]
  | location =>
    rcases hfc : findLocation doc.bodyText with _ | v <;> rw [hfc] at hc
    · cases hc
    · rw [mem_ite_singleton hc]
  | description => cases hc

theorem mem_fallbackCands_conf (doc : Doc) (f : Field) (c : Cand)
    (hc : c ∈ fallbackCands doc f) : c.confidence = 40 ∨ c.confidence = 35 := by
  unfold fallbackCands at hc
  cases f with
  | company =>
    refine Or.inr ?_
    have hx : c = ⟨domainCompany doc.hostname, 35, "Domain Name"⟩ := by
      simpa using hc
    rw [hx]
  | jobTitle =>
    rcases List.mem_append.mp hc with h | h
    · refine Or.inl ?_
      rcases hm : titleBeforeSep doc.title with _ | m <;> rw [hm] at h
      · cases h
      · rw [mem_ite_singleton h]
    · refine Or.inr ?_
      rcases hm : doc.headings.find? (fun h => h.tag == HTag.h1) with _ | firstH1 <;>
        rw [hm] at h
      · cases h
      · rw [mem_ite_singleton h]
  | location => cases hc
  | description => cases hc

theorem mem_fieldCandidates_conf (doc : Doc) (f : Field) (c : Cand)
    (hc : c ∈ fieldCandidates doc f) :
    c.confidence = 35 ∨ c.confidence = 40 ∨ c.confidence = 60 ∨ c.confidence = 70 ∨
      c.confidence = 75 ∨ c.confidence = 80 ∨ c.confidence = 85 ∨ c.confidence = 95 := by
  unfold fieldCandidates at hc
  rcases List.mem_append.mp hc with h | h
  · rcases List.mem_append.mp h with h | h
    · rcases List.mem_append.mp h with h | h
      · rcases List.mem_append.mp h with h | h
        · rcases List.mem_append.mp h with h | h
          · rcases List.mem_append.mp h with h | h
            · have := mem_jsonLdCands_conf doc f c h
              omega
            · have := mem_ogCands_conf doc f c h
              omega
          · have := mem_siteCands_conf doc f c h
            omega
        · have := mem_genericCands_conf doc f c h
          omega
      · have := mem_ariaCands_conf doc.ariaElements f c h
        omega
    · have := mem_textCands_conf doc f c h
      omega
  · have := mem_fallbackCands_conf doc f c h
    omega

theorem maxValidConf_cases (cs : List Cand) :
    maxValidConf cs = 0 ∨ ∃ c ∈ cs, maxValidConf cs = c.confidence := by
  have main : ∀ (l : List Cand) (b : Nat),
      l.foldl confStep b = b ∨ ∃ c ∈ l, l.foldl confStep b = c.confidence := by
    intro l
    induction l with
    | nil => intro b; exact Or.inl rfl
    | cons c l ih =>
      intro b
      rw [List.foldl_cons]
      rcases ih (confStep b c) with h | ⟨d, hd, h⟩
      · rw [h]
        unfold confStep
        split
        · exact Or.inr ⟨c, List.mem_cons_self c l, rfl⟩
        · exact Or.inl rfl
      · exact Or.inr ⟨d, List.mem_cons_of_mem c hd, h⟩
  exact main cs 0

/-! ### Bridges between `detect` and the accumulator -/

theorem detect_value_eq (doc : Doc) (f : Field) :
    (detect doc).valueOf f = ((detectResults doc).get f).value := by
  cases f <;>
    simp only [detect, DetectionOutput.valueOf, ConfMap.get, SrcMap.get, Results.get]

theorem detect_conf_eq (doc : Doc) (f : Field) :
    (detect doc).confidence.get f = ((detectResults doc).get f).confidence := by
  cases f <;>
    simp only [detect, DetectionOutput.valueOf, ConfMap.get, SrcMap.get, Results.get]

theorem detect_src_eq (doc : Doc) (f : Field) :
    (detect doc).sources.get f = ((detectResults doc).get f).source := by
  cases f <;>
    simp only [detect, DetectionOutput.valueOf, ConfMap.get, SrcMap.get, Results.get]

/-! ### Whitespace-normalization facts about `collapseWs` -/

theorem collapseWsAux_ws_space :
    ∀ (l : List Char), ∀ c ∈ collapseWsAux l, c.isWhitespace → c = ' ' := by
  intro l
  induction l with
  | nil => intro c hc; cases hc
  | cons a tail ih =>
    intro c hc hw
    cases tail with
    | nil =>
      unfold collapseWsAux at hc
      split at hc
      · simpa using hc
      · next ha =>
        have : c = a := by simpa using hc
        rw [this] at hw
        exact absurd hw ha
    | cons b rest =>
      unfold collapseWsAux at hc
      split at hc
      · split at hc
        · exact ih c hc hw
        · rcases List.mem_cons.mp hc with h | h
          · exact h
          · exact ih c h hw
      · next ha =>
        rcases List.mem_cons.mp hc with h | h
        · rw [h] at hw
          exact absurd hw ha
        · exact ih c h hw

theorem collapseWsAux_head_not_ws (b : Char) (rest : List Char) (hb : ¬ b.isWhitespace = true) :
    ∃ t, collapseWsAux (b :: rest) = b :: t := by
  cases rest with
  | nil => exact ⟨[], by simp [collapseWsAux, hb]⟩
  | cons c r => exact ⟨collapseWsAux (c :: r), by simp [collapseWsAux, hb]⟩

theorem collapseWsAux_chain :
    ∀ (l : List Char),
      List.Chain' (fun a b => ¬(a.isWhitespace ∧ b.isWhitespace)) (collapseWsAux l) := by
  intro l
  induction l with
  | nil => exact List.chain'_nil
  | cons a tail ih =>
    cases tail with
    | nil =>
      unfold collapseWsAux
      split <;> exact List.chain'_singleton _
    | cons b rest =>
      unfold collapseWsAux
      split
      · next ha =>
        split
        · exact ih
        · next hb =>
          rcases collapseWsAux_head_not_ws b rest hb with ⟨t, ht⟩
          rw [ht]
          rw [ht] at ih
          exact List.chain'_cons.mpr ⟨fun hcon => hb hcon.2, ih⟩
      · next ha =>
        refine List.chain'_cons'.mpr ⟨?_, ih⟩
        intro y _
        intro hcon
        exact ha hcon.1

/-! ### The claims -/

/-- Claim C2 (counterexample): on a document whose only signals are the page
title "DevOps Lead - Acme Careers" and the hostname "jobs.acme.com", the
hostname-derived company is the substring before the first dot, "jobs",
capitalized to "Jobs" — not "Acme" as the claim states. -/
theorem fallback_company_counterexample :
    (detect c2doc).company = "Jobs" ∧ (detect c2doc).company ≠ "Acme" := by decide

/-- Claim C2 (amended): on that document, detect returns jobTitle "DevOps
Lead" at confidence 40 from the page title (split at the first '-' or '|',
trimmed) and company "Jobs" at confidence 35, derived from the hostname by
stripping a leading "www.", taking the substring before the first dot, and
capitalizing the first character. -/
theorem fallback_layer_outputs :
    detect c2doc =
      ⟨"Jobs", "DevOps Lead", "", "", ⟨35, 40, 0, 0⟩,
       ⟨"Domain Name", "Page Title", "", ""⟩⟩ := by decide

/-- Claim C4: on a document whose only signal is a JobPosting JSON-LD block
with title "Senior Engineer", hiringOrganization.name "Acme Corp" and a
structured address Austin/TX, detect returns those fields at confidence 95
sourced "JSON-LD Schema", with the location joined "locality, region"; and a
structured address with neither locality nor region falls back to the
country, else yields no match. -/
theorem structured_data_detection :
    detect c4doc =
      ⟨"Acme Corp", "Senior Engineer", "Austin, TX", "", ⟨95, 95, 95, 0⟩,
       ⟨"JSON-LD Schema", "JSON-LD Schema", "JSON-LD Schema", ""⟩⟩ ∧
    parseJobLocation (JsonJobLoc.obj (some (JsonAddr.obj "" "" "Spain"))) = some "Spain" ∧
    parseJobLocation (JsonJobLoc.obj (some (JsonAddr.obj "" "" ""))) = none := by decide

/-- Claim C6: on a document with no structured data, no matching selectors and
body text "Join Acme Inc as a Senior Engineer in Austin, TX", detect resolves
company through the legal-entity-suffix pattern to a string containing
"Acme Inc" at confidence 60, and location through the City, ST pattern to
"Austin, TX" at confidence 60, both sourced "Text Analysis". -/
theorem text_analysis_detection :
    strContains (detect c6doc).company "Acme Inc" = true ∧
    (detect c6doc).confidence.company = 60 ∧
    (detect c6doc).sources.company = "Text Analysis" ∧
    (detect c6doc).location = "Austin, TX" ∧
    (detect c6doc).confidence.location = 60 ∧
    (detect c6doc).sources.location = "Text Analysis" := by decide

/-- Claim C7 (counterexample): on a document whose only heading is an h2
reading "lead" at 20px — a keyword match with font size above 18px — the
code's job-title scan returns nothing (the text is only 4 characters long,
failing the `length > 5` bound the claim omits), while the scan as the claim
words it returns "lead". -/
theorem findJobTitle_claim_counterexample :
    findJobTitle c7doc c7doc.headings c7doc.bodyText ≠ findJobTitleClaim c7doc ∧
    findJobTitle c7doc c7doc.headings c7doc.bodyText = none ∧
    findJobTitleClaim c7doc = some "lead" := by decide

/-- Claim C3: the shared field-update primitive rejects candidates whose value
trims to empty; it replaces the field only when the candidate confidence is
strictly greater than the current one, storing the trimmed value with every
internal whitespace run collapsed to a single space (the stored value has no
whitespace other than `' '` and no two adjacent whitespace characters), and it
never touches the other fields; in particular "  Acme   Corp\n" is stored as
"Acme Corp". -/
theorem updateField_contract (r : Results) (f : Field) (v : String) (c : Nat) (s : String) :
    (jsTrim v = "" → updateField r f v c s = r) ∧
    (c ≤ (r.get f).confidence → updateField r f v c s = r) ∧
    (jsTrim v ≠ "" → (r.get f).confidence < c →
      (updateField r f v c s).get f = ⟨collapseWs (jsTrim v), c, s⟩ ∧
      ∀ g, g ≠ f → (updateField r f v c s).get g = r.get g) ∧
    (∀ ch ∈ (collapseWs (jsTrim v)).data, ch.isWhitespace → ch = ' ') ∧
    List.Chain' (fun a b => ¬(a.isWhitespace ∧ b.isWhitespace)) (collapseWs (jsTrim v)).data ∧
    ((updateField initialResults .company "  Acme   Corp\n" 95 "Test").get .company).value
      = "Acme Corp" := by
  refine ⟨?_, ?_, ?_, ?_, ?_, by decide⟩
  · intro h
    unfold updateField
    rw [if_pos ((str_length_zero_iff _).mpr h)]
  · intro h
    unfold updateField
    split
    · rfl
    · dsimp only
      rw [if_neg (by omega)]
  · intro hv hc
    have hlen : ¬ (jsTrim v).length = 0 := fun h => hv ((str_length_zero_iff _).mp h)
    constructor
    · unfold updateField
      rw [if_neg hlen]
      dsimp only
      rw [if_pos hc]
      exact get_set_same r f _
    · intro g hg
      unfold updateField
      rw [if_neg hlen]
      dsimp only
      rw [if_pos hc]
      exact get_set_ne r f g _ hg
  · intro ch hch
    exact collapseWsAux_ws_space (jsTrim v).data ch hch
  · exact collapseWsAux_chain (jsTrim v).data

/-- Witness for claim C3 at concrete inputs. -/
theorem updateField_contract_witness :
    updateField initialResults .company "   " 95 "Test" = initialResults ∧
    (updateField initialResults .company "Acme" 95 "Test").get .company =
      ⟨"Acme", 95, "Test"⟩ := by
  constructor
  · exact (updateField_contract initialResults .company "   " 95 "Test").1 (by decide)
  · have h := ((updateField_contract initialResults .company "Acme" 95 "Test").2.2.1
      (by decide) (by decide)).1
    rw [h]
    decide

/-- Claim C9: the hostname-derived company fallback is attempted only when the
company's confidence is below 40 — at 40 or above the fallback step leaves the
results untouched and the whole fallback layer leaves the company slot
unchanged — and below 40 it is exactly the 35-confidence domain-name update. -/
theorem domain_fallback_guard (doc : Doc) (r : Results) :
    (40 ≤ (r.get .company).confidence →
      fallbackDomain doc r = r ∧ (applyFallbacks doc r).get .company = r.get .company) ∧
    ((r.get .company).confidence < 40 →
      fallbackDomain doc r =
        updateField r .company (domainCompany doc.hostname) 35 "Domain Name") := by
  constructor
  · intro h
    constructor
    · unfold fallbackDomain
      rw [if_neg (by omega)]
    · rw [applyFallbacks_get]
      show List.foldl applyCand (r.get Field.company)
        [⟨domainCompany doc.hostname, 35, "Domain Name"⟩] = _
      show applyCand (r.get Field.company) _ = _
      exact applyCand_of_le _ _ (by show 35 ≤ _; omega)
  · intro h
    unfold fallbackDomain
    rw [if_pos h]

/-- Witness for claim C9: a company already at confidence 80 is untouched by
the fallback layer, and one at 0 receives the domain-name attempt. -/
theorem domain_fallback_guard_witness :
    (fallbackDomain c2doc { initialResults with company := ⟨"LinkedIn", 80, "S"⟩ } =
      { initialResults with company := ⟨"LinkedIn", 80, "S"⟩ }) ∧
    fallbackDomain c2doc initialResults =
      updateField initialResults .company (domainCompany c2doc.hostname) 35 "Domain Name" := by
  constructor
  · exact ((domain_fallback_guard c2doc _).1 (by decide)).1
  · exact (domain_fallback_guard c2doc initialResults).2 (by decide)

theorem findJobPostingSchema_flatten (scripts : List (Option (List JsonItem))) :
    (scripts.findSome? fun script =>
      match script with
      | none => none
      | some items => items.find? fun item => item.atType == "JobPosting") =
    ((scripts.filterMap id).flatten.find? fun item => item.atType == "JobPosting") := by
  induction scripts with
  | nil => rfl
  | cons b rest ih =>
    rw [List.findSome?_cons]
    cases b with
    | none =>
      simp only [List.filterMap_cons, id]
      exact ih
    | some items =>
      simp only [List.filterMap_cons, id, List.flatten_cons]
      rw [List.find?_append]
      cases hf : items.find? (fun item => item.atType == "JobPosting") with
      | none =>
        rw [Option.none_or]
        exact ih
      | some it => rfl

/-- Claim C5: a structured-data block whose items are not of type
"JobPosting" never populates any field in the JSON-LD part of layer 1; the
schema lookup returns the first JobPosting-typed item across all parsed
blocks in document order (a block that is an ordered collection contributes
its items in order), and a block that fails to parse is skipped. -/
theorem non_jobposting_never_populates (doc : Doc) (r : Results) :
    ((∀ items ∈ doc.jsonLdScripts.filterMap id, ∀ item ∈ items,
        item.atType ≠ "JobPosting") →
      findJobPostingSchema doc = none ∧ jsonLdApply doc r = r) ∧
    (findJobPostingSchema doc =
      ((doc.jsonLdScripts.filterMap id).flatten.find? fun item =>
        item.atType == "JobPosting")) ∧
    (∀ (blocks : List (Option (List JsonItem))), doc.jsonLdScripts = none :: blocks →
      findJobPostingSchema doc = findJobPostingSchema { doc with jsonLdScripts := blocks }) := by
  refine ⟨?_, findJobPostingSchema_flatten doc.jsonLdScripts, ?_⟩
  · intro hall
    have hnone : findJobPostingSchema doc = none := by
      rw [show findJobPostingSchema doc = _ from findJobPostingSchema_flatten doc.jsonLdScripts]
      rw [List.find?_eq_none]
      intro item hmem
      rcases List.mem_flatten.mp hmem with ⟨items, hitems, hinitem⟩
      have hne := hall items hitems item hinitem
      simpa using hne
    refine ⟨hnone, ?_⟩
    unfold jsonLdApply
    rw [hnone]
  · intro blocks hb
    unfold findJobPostingSchema
    rw [hb]
    simp [List.findSome?_cons]

/-- Witness for claim C5: a parsed block typed "Product" populates nothing,
and a leading unparseable block is skipped. -/
theorem non_jobposting_never_populates_witness :
    findJobPostingSchema
        { emptyDoc with jsonLdScripts := [some [⟨"Product", "X", "Y", none, "Z"⟩]] } = none ∧
    jsonLdApply { emptyDoc with jsonLdScripts := [some [⟨"Product", "X", "Y", none, "Z"⟩]] }
        initialResults = initialResults := by
  exact (non_jobposting_never_populates _ initialResults).1 (by decide)

/-- Claim C8: detection represents absence structurally rather than by
failure: a field no layer matched comes back with empty value, confidence 0
and empty source; a structured-data block that fails to parse is skipped and
detection continues with the remaining blocks; and a selector whose
evaluation throws is caught and treated as no match, the selector loop
continuing with the next candidate. (The embedding of `detect` is a total
function, which is how "never raises an error to its caller" is rendered.) -/
theorem detect_never_fails (doc : Doc) (f : Field) :
    ((detect doc).confidence.get f = 0 →
      (detect doc).valueOf f = "" ∧ (detect doc).sources.get f = "") ∧
    (∀ (blocks : List (Option (List JsonItem))), doc.jsonLdScripts = none :: blocks →
      findJobPostingSchema doc = findJobPostingSchema { doc with jsonLdScripts := blocks }) ∧
    (∀ (sel : String) (sels : List String) (r : Results) (conf : Nat) (src : String),
      doc.query sel = QueryResult.err →
      trySelectorsGo doc f conf src (sel :: sels) r = trySelectorsGo doc f conf src sels r) := by
  refine ⟨?_, ?_, ?_⟩
  · intro h0
    have hc : ((detectResults doc).get f).confidence = 0 := by
      rw [← detect_conf_eq]
      exact h0
    rw [detectResults_get, foldl_applyCand_confidence] at hc
    have hM : maxValidConf (fieldCandidates doc f) = 0 := hc
    have hfold : List.foldl applyCand initField (fieldCandidates doc f) = initField := by
      refine foldl_applyCand_noop _ _ fun c hcand => ?_
      by_cases hv : jsTrim c.value = ""
      · exact Or.inl hv
      · refine Or.inr ?_
        have := mem_le_maxValidConf (fieldCandidates doc f) c hcand hv
        show c.confidence ≤ 0
        omega
    constructor
    · rw [detect_value_eq, detectResults_get, hfold]
      rfl
    · rw [detect_src_eq, detectResults_get, hfold]
      rfl
  · intro blocks hb
    unfold findJobPostingSchema
    rw [hb]
    simp [List.findSome?_cons]
  · intro sel sels r conf src hq
    simp only [trySelectorsGo, hq]

/-- Witness for claim C8: on the empty document every field reports empty
value, zero confidence and empty source. -/
theorem detect_never_fails_witness :
    (detect emptyDoc).valueOf .company = "" ∧ (detect emptyDoc).sources.get .company = "" :=
  (detect_never_fails emptyDoc .company).1 (by decide)

/-- Claim C1: for every document and field, the final slot is the fold of the
one-field update primitive over the field's candidate list; the final
confidence is the maximum confidence among the candidates with a non-empty
trimmed match (and that maximum really is a list maximum); the stored value
and source are those of the first candidate to carry that maximum; no update
ever lowers any field's confidence; and a candidate whose confidence equals
the field's current confidence never overwrites the stored value. -/
theorem detect_resolution_invariant (doc : Doc) (f : Field) :
    ((detectResults doc).get f = List.foldl applyCand initField (fieldCandidates doc f)) ∧
    ((detect doc).confidence.get f = maxValidConf (fieldCandidates doc f)) ∧
    (maxValidConf (fieldCandidates doc f) =
      (((fieldCandidates doc f).filter fun c => jsTrim c.value ≠ "").map
        Cand.confidence).foldl max 0) ∧
    (∀ w : Cand,
      (fieldCandidates doc f).find?
          (fun c => jsTrim c.value != "" &&
            c.confidence == maxValidConf (fieldCandidates doc f)) = some w →
      (detect doc).valueOf f = collapseWs (jsTrim w.value) ∧
        (detect doc).sources.get f = w.source) ∧
    (∀ (r : Results) (g g' : Field) (v : String) (cf : Nat) (s : String),
      (r.get g').confidence ≤ ((updateField r g v cf s).get g').confidence) ∧
    (∀ (r : Results) (g : Field) (v s : String),
      updateField r g v ((r.get g).confidence) s = r) := by
  refine ⟨detectResults_get doc f, ?_, maxValidConf_eq_filter_max _, ?_, ?_, ?_⟩
  · rw [detect_conf_eq, detectResults_get, foldl_applyCand_confidence]
    rfl
  · intro w hw
    have hmem : w ∈ fieldCandidates doc f := List.mem_of_find?_eq_some hw
    have hpred := List.find?_some hw
    have hval : jsTrim w.value ≠ "" := by
      intro hcontra
      rw [hcontra] at hpred
      simp at hpred
    have hconf : w.confidence = maxValidConf (fieldCandidates doc f) := by
      have h2 := hpred
      simp only [Bool.and_eq_true, beq_iff_eq, bne_iff_ne, ne_eq] at h2
      exact h2.2
    have hpos : 0 < w.confidence := by
      rcases mem_fieldCandidates_conf doc f w hmem with h | h | h | h | h | h | h | h <;> omega
    have hlt : initField.confidence < maxValidConf (fieldCandidates doc f) := by
      show 0 < _
      omega
    have hwin := foldl_applyCand_winner (fieldCandidates doc f) initField w hlt hw
    constructor
    · rw [detect_value_eq, detectResults_get, hwin]
    · rw [detect_src_eq, detectResults_get, hwin]
  · intro r g g' v cf s
    by_cases hgg : g' = g
    · subst hgg
      rw [updateField_get]
      exact applyCand_confidence_mono _ _
    · rw [updateField_get_ne r g g' v cf s hgg]
  · intro r g v s
    unfold updateField
    split
    · rfl
    · dsimp only
      rw [if_neg (lt_irrefl _)]

/-- Witness for claim C1: on the structured-data document the winning
candidate for company is the JSON-LD organization name at confidence 95. -/
theorem detect_resolution_invariant_witness :
    (detect c4doc).valueOf .company = "Acme Corp" ∧
      (detect c4doc).sources.get .company = "JSON-LD Schema" := by
  have h := (detect_resolution_invariant c4doc .company).2.2.2.1
    ⟨"Acme Corp", 95, "JSON-LD Schema"⟩ (by decide)
  refine ⟨?_, h.2⟩
  rw [h.1]
  decide

/-- Claim C10: every returned confidence lies in the fixed set
{0, 35, 40, 60, 70, 75, 80, 85, 95}; hence the medium indicator band (40-69)
can only arise from 40 and 60, and the low band (1-39) only from 35. -/
theorem confidence_value_set (doc : Doc) (f : Field) :
    ((detect doc).confidence.get f = 0 ∨ (detect doc).confidence.get f = 35 ∨
      (detect doc).confidence.get f = 40 ∨ (detect doc).confidence.get f = 60 ∨
      (detect doc).confidence.get f = 70 ∨ (detect doc).confidence.get f = 75 ∨
      (detect doc).confidence.get f = 80 ∨ (detect doc).confidence.get f = 85 ∨
      (detect doc).confidence.get f = 95) ∧
    (40 ≤ (detect doc).confidence.get f ∧ (detect doc).confidence.get f ≤ 69 →
      (detect doc).confidence.get f = 40 ∨ (detect doc).confidence.get f = 60) ∧
    (1 ≤ (detect doc).confidence.get f ∧ (detect doc).confidence.get f ≤ 39 →
      (detect doc).confidence.get f = 35) := by
  have hc : (detect doc).confidence.get f = maxValidConf (fieldCandidates doc f) := by
    rw [detect_conf_eq, detectResults_get, foldl_applyCand_confidence]
    rfl
  have hS : (detect doc).confidence.get f = 0 ∨
      ∃ c ∈ fieldCandidates doc f, (detect doc).confidence.get f = c.confidence := by
    rw [hc]
    exact maxValidConf_cases _
  rcases hS with h0 | ⟨c, hm, he⟩
  · exact ⟨Or.inl h0, by omega, by omega⟩
  · have hv := mem_fieldCandidates_conf doc f c hm
    refine ⟨?_, by omega, by omega⟩
    omega

/-- Witness for claim C10: the fallback-only document shows company in the low
band at exactly 35 and job title in the medium band at exactly 40. -/
theorem confidence_value_set_witness :
    (detect c2doc).confidence.get .company = 35 ∧
      ((detect c2doc).confidence.get .jobTitle = 40 ∨
        (detect c2doc).confidence.get .jobTitle = 60) := by
  exact ⟨(confidence_value_set c2doc .company).2.2 (by decide),
    (confidence_value_set c2doc .jobTitle).2.1 (by decide)⟩

end JobDetector
